import Mathlib

/-!
Verification of the backtest engine (`backtest_engine.py`) of the `robin`
repository.

The development shallowly embeds the engine in Lean 4:

* prices, fees and portfolio state are exact rationals (`ℚ`); the Python
  source computes with IEEE doubles, which approximate this real-number
  semantics;
* dates are natural-number indices into the benchmark trading calendar
  (the source uses a pandas `DatetimeIndex`; only the order of dates is
  relevant to the engine);
* a pandas `NaN` entry is modelled as `Option.none`;
* value-level metrics that involve `sqrt` (Sharpe ratio, information
  ratio) live in `ℝ`.

Definitions follow the structure of the source function by function; the
simulator (`_simulate_on_dates`) becomes a fold of a per-day step function
over the date list.
-/

namespace Backtest

/-! ### Module constants (`backtest_engine.py`, lines 28-44)

`INITIAL_CAPITAL = 10_000.0`, `MAX_POSITION_PCT = 0.15`,
`MAX_OPEN_POSITIONS = 6`, `MAX_NEW_TRADES_PER_DAY = 1`,
`CASH_BUFFER_PCT = 0.20`, `STOP_LOSS_PCT = 0.08`, `SLIPPAGE_BPS = 5.0`,
`FEE_PER_TRADE = 1.0`, `TRADING_DAYS = 252`, `ENTRY_THRESHOLD = 70`.
`_slippage_factor` is `SLIPPAGE_BPS / 10_000`. -/

def INITIAL_CAPITAL : ℚ := 10000

def ENTRY_THRESHOLD : ℤ := 70

def MAX_POSITION_PCT : ℚ := 15 / 100

def MAX_OPEN_POSITIONS : ℕ := 6

def MAX_NEW_TRADES_PER_DAY : ℕ := 1

def CASH_BUFFER_PCT : ℚ := 20 / 100

def STOP_LOSS_PCT : ℚ := 8 / 100

def FEE_PER_TRADE : ℚ := 1

def TRADING_DAYS : ℕ := 252

/-- `_slippage_factor()`: `SLIPPAGE_BPS / 10_000.0 = 0.0005`. -/
def slippage_factor : ℚ := 5 / 10000

/-- `_safe_div`: returns `0` when the denominator is `0` (source lines 53-56). -/
def safe_div (numerator denominator : ℚ) : ℚ :=
  if denominator = 0 then 0 else numerator / denominator

/-! ### Data model of one simulation run

`symbol_data[symbol]` in the source is a dict with the (calendar-aligned,
forward-filled) `open` and `close` price series and the feature table, of
which the simulator reads only the `score` column.  We model the three
series as total functions of the date index; a `NaN` score is `none`.
Symbols are natural numbers; the list order is the dict insertion order of
`symbol_data`, which the source iterates over. -/

structure SymTable where
  opn : ℕ → ℚ
  close : ℕ → ℚ
  score : ℕ → Option ℚ

/-- Close price of `sym` on `date` (`symbol_data[symbol]["close"].loc[date]`).
A missing symbol would raise a `KeyError` in the source; the simulator only
ever looks up symbols present in `symbol_data`, so the default `0` branch is
unreachable in any run. -/
def closeOf (data : List (ℕ × SymTable)) (sym date : ℕ) : ℚ :=
  match data.lookup sym with
  | some t => t.close date
  | none => 0

/-- Open price of `sym` on `date` (`symbol_data[symbol]["open"].loc[date]`). -/
def openOf (data : List (ℕ × SymTable)) (sym date : ℕ) : ℚ :=
  match data.lookup sym with
  | some t => t.opn date
  | none => 0

/-- An open position: `{"qty": int, "entry_price": float, "entry_date": date}`. -/
structure Position where
  qty : ℕ
  entry_price : ℚ
  entry_date : ℕ
deriving DecidableEq

inductive Side where
  | buy
  | sellStop
deriving DecidableEq

/-- One row of the trade ledger.  The source additionally records a rounded
display price, the notional and (for buys) the signal score; those fields are
derived from the ones here and are not read anywhere, so they are omitted.
`price` is the unrounded execution price (the source stores
`round(price, 4)` for display only and uses the unrounded value for cash
accounting).  `posEntryDate` is a ghost provenance field not present in the
source ledger: for a `SELL_STOP` row it is the entry date of the position
being closed, for a `BUY` row it equals `date`. -/
structure Trade where
  date : ℕ
  symbol : ℕ
  side : Side
  qty : ℕ
  price : ℚ
  posEntryDate : ℕ
deriving DecidableEq

/-- One equity-history row `{"date": .., "equity": .., "cash": ..,
"positions": len(positions)}`.  `held` is a ghost field recording the full
position map at snapshot time (the source stores only the count, which is
the `positions` field here); it lets us state the mark-to-market invariant
about each snapshot. -/
structure Snapshot where
  date : ℕ
  equity : ℚ
  cash : ℚ
  positions : ℕ
  held : List (ℕ × Position)
deriving DecidableEq

/-- The simulator's mutable state: `cash`, the `positions` dict (an
insertion-ordered association list, like a Python dict), the equity
`history` and the trade ledger. -/
structure SimState where
  cash : ℚ
  positions : List (ℕ × Position)
  history : List Snapshot
  trades : List Trade
deriving DecidableEq

/-- Mark-to-market value of a set of positions at `date`:
`Σ position.qty * close[date]`. -/
def markValue (data : List (ℕ × SymTable)) (ps : List (ℕ × Position)) (date : ℕ) : ℚ :=
  (ps.map fun sp => (sp.2.qty : ℚ) * closeOf data sp.1 date).sum

/-- The stop-loss test of source line 226:
`close_price <= entry_price * (1.0 - stop_loss_pct)`. -/
def stopTriggered (stop entry_price close_price : ℚ) : Prop :=
  close_price ≤ entry_price * (1 - stop)

instance (stop entry_price close_price : ℚ) :
    Decidable (stopTriggered stop entry_price close_price) := by
  unfold stopTriggered; infer_instance

/-- Pass 1 of a simulated day (source lines 221-240): walk the open
positions in order; every position whose close is at or below the stop
threshold is exited at `close * (1 - slippage)`, the proceeds minus the fee
(clamped below at `0`) are credited to cash, a `SELL_STOP` trade is
recorded and the position is removed.  Returns the total cash credited, the
surviving positions (in order) and the exit trades (in order). -/
def exitsPass (data : List (ℕ × SymTable)) (stop : ℚ) (date : ℕ) :
    List (ℕ × Position) → ℚ × List (ℕ × Position) × List Trade
  | [] => (0, [], [])
  | (sym, p) :: rest =>
    let r := exitsPass data stop date rest
    let close_price := closeOf data sym date
    if stopTriggered stop p.entry_price close_price then
      let exit_price := close_price * (1 - slippage_factor)
      (max 0 ((p.qty : ℚ) * exit_price - FEE_PER_TRADE) + r.1, r.2.1,
        ⟨date, sym, Side.sellStop, p.qty, exit_price, p.entry_date⟩ :: r.2.2)
    else
      (r.1, (sym, p) :: r.2.1, r.2.2)

/-- Pass 2 of a simulated day (source lines 248-261): the unsorted candidate
list.  A symbol is a candidate when it is not held, its previous-day score
is defined and at least the (integer) entry threshold, and its open today is
positive — and only when the open-position count is below the cap.  List
order is the `symbol_data` iteration order. -/
def candidates (data : List (ℕ × SymTable)) (threshold : ℤ)
    (held : List (ℕ × Position)) (date prev : ℕ) : List (ℕ × ℚ × ℚ) :=
  if held.length < MAX_OPEN_POSITIONS then
    data.filterMap fun st =>
      if (held.lookup st.1).isSome then none
      else
        match st.2.score prev with
        | none => none
        | some s =>
          if s < (threshold : ℚ) then none
          else
            let next_open := st.2.opn date
            if next_open ≤ 0 then none else some (st.1, s, next_open)
  else []

/-- Stable insertion of a candidate into a list sorted by descending score:
the new element goes after all elements whose score is `≥` its own.  This
matches Python's stable `list.sort(key=score, reverse=True)` of source
line 262. -/
def insertCand (c : ℕ × ℚ × ℚ) : List (ℕ × ℚ × ℚ) → List (ℕ × ℚ × ℚ)
  | [] => [c]
  | d :: ds => if c.2.1 ≤ d.2.1 then d :: insertCand c ds else c :: d :: ds

/-- `candidates.sort(key=lambda item: item[1], reverse=True)`: stable sort by
descending score. -/
def sortCandidates (l : List (ℕ × ℚ × ℚ)) : List (ℕ × ℚ × ℚ) :=
  l.foldl (fun acc c => insertCand c acc) []

/-! Pass 3 of a simulated day (source lines 264-300): walk the sorted
candidates.  The loop breaks when the daily new-trade budget or the position
cap is reached or spendable cash is exhausted; otherwise the candidate is
sized at `min(equity * max_position_pct, spendable)` notional, the integer
quantity is `⌊max(0, target - fee) / exec_price⌋`, and the candidate is
skipped when that quantity is `0` or the total cost exceeds cash.  The
sizing arithmetic of source lines 276-282 is split into named functions so
the claims can refer to it; `entriesPass` returns final cash, final
positions and the `BUY` trades in order, its arguments after the candidate
list being cash, spendable cash, positions and the `opened` counter. -/

/-- `exec_price = next_open * (1.0 + slip)` (source line 276). -/
def exec_price_of (next_open : ℚ) : ℚ :=
  next_open * (1 + slippage_factor)

/-- `target_notional = min(equity * max_position_pct, spendable_cash)`
(source line 277). -/
def target_notional_of (maxPos equity spendable : ℚ) : ℚ :=
  min (equity * maxPos) spendable

/-- `qty = int(max(0.0, target_notional - FEE_PER_TRADE) / exec_price)`
(source line 278): the fee is subtracted from the target notional before
the truncating division. -/
def code_entry_qty (maxPos equity spendable next_open : ℚ) : ℕ :=
  ⌊max 0 (target_notional_of maxPos equity spendable - FEE_PER_TRADE) /
    exec_price_of next_open⌋₊

/-- `total_cost = qty * exec_price + FEE_PER_TRADE` (source line 282). -/
def entry_total_cost (maxPos equity spendable next_open : ℚ) : ℚ :=
  (code_entry_qty maxPos equity spendable next_open : ℚ) * exec_price_of next_open +
    FEE_PER_TRADE

def entriesPass (maxPos equity : ℚ) (date : ℕ) :
    List (ℕ × ℚ × ℚ) → ℚ → ℚ → List (ℕ × Position) → ℕ → ℚ × List (ℕ × Position) × List Trade
  | [], cash, _, pos, _ => (cash, pos, [])
  | (sym, _, next_open) :: rest, cash, spendable, pos, opened =>
    if MAX_NEW_TRADES_PER_DAY ≤ opened ∨ MAX_OPEN_POSITIONS ≤ pos.length ∨ spendable ≤ 0 then
      (cash, pos, [])
    else
      let qty : ℕ := code_entry_qty maxPos equity spendable next_open
      if qty = 0 then entriesPass maxPos equity date rest cash spendable pos opened
      else
        let total_cost := entry_total_cost maxPos equity spendable next_open
        if cash < total_cost then entriesPass maxPos equity date rest cash spendable pos opened
        else
          let r := entriesPass maxPos equity date rest (cash - total_cost)
            (max 0 (spendable - total_cost))
            (pos ++ [(sym, ⟨qty, exec_price_of next_open, date⟩)]) (opened + 1)
          (r.1, r.2.1, ⟨date, sym, Side.buy, qty, exec_price_of next_open, date⟩ :: r.2.2)

/-- One simulated day `date` with previous trading day `prev` (the body of
the loop of source lines 216-306): exits, candidate construction, entries,
end-of-day snapshot. -/
def dayStep (data : List (ℕ × SymTable)) (threshold : ℤ) (maxPos stop : ℚ)
    (st : SimState) (prev date : ℕ) : SimState :=
  let ex := exitsPass data stop date st.positions
  let cash1 := st.cash + ex.1
  let equity := cash1 + markValue data ex.2.1 date
  let cands := sortCandidates (candidates data threshold ex.2.1 date prev)
  let spendable := max 0 (cash1 - equity * CASH_BUFFER_PCT)
  let en := entriesPass maxPos equity date cands cash1 spendable ex.2.1 0
  let end_equity := en.1 + markValue data en.2.1 date
  { cash := en.1
    positions := en.2.1
    history := st.history ++ [⟨date, end_equity, en.1, en.2.1.length, en.2.1⟩]
    trades := st.trades ++ ex.2.2 ++ en.2.2 }

/-- The sorted candidate list built on day `date` (after the exit pass) from
pre-day state `st` — the value the entry loop of `_simulate_on_dates`
consumes on that day. -/
def dayCandidates (data : List (ℕ × SymTable)) (threshold : ℤ) (stop : ℚ)
    (st : SimState) (prev date : ℕ) : List (ℕ × ℚ × ℚ) :=
  sortCandidates (candidates data threshold (exitsPass data stop date st.positions).2.1 date prev)

/-- Fold of `dayStep` over the remaining dates, carrying the previous date.
Returns the final state and the last processed date. -/
def runDays (data : List (ℕ × SymTable)) (threshold : ℤ) (maxPos stop : ℚ) :
    SimState → ℕ → List ℕ → SimState × ℕ
  | st, prev, [] => (st, prev)
  | st, prev, d :: ds =>
    runDays data threshold maxPos stop (dayStep data threshold maxPos stop st prev d) d ds

/-- The initial state (source lines 209-212): full cash, no positions, the
history seeded with the day-0 snapshot at the initial capital. -/
def initState (d0 : ℕ) : SimState :=
  { cash := INITIAL_CAPITAL
    positions := []
    history := [⟨d0, INITIAL_CAPITAL, INITIAL_CAPITAL, 0, []⟩]
    trades := [] }

/-- `_simulate_on_dates` (source lines 195-306), up to the final state: the
source raises when fewer than two dates or no symbols are supplied (`none`
here); otherwise it folds the day step over `dates[1:]`. -/
def simulate_on_dates (data : List (ℕ × SymTable)) (threshold : ℤ) (maxPos stop : ℚ)
    (dates : List ℕ) : Option SimState :=
  match dates with
  | d0 :: d1 :: rest =>
    if data.isEmpty then none
    else some (runDays data threshold maxPos stop (initState d0) d0 (d1 :: rest)).1
  | _ => none

/-- The final state of a (valid) run started at `d0` over the further days
`days` — the unwrapped body of `simulate_on_dates`. -/
def runSim (data : List (ℕ × SymTable)) (threshold : ℤ) (maxPos stop : ℚ)
    (d0 : ℕ) (days : List ℕ) : SimState :=
  (runDays data threshold maxPos stop (initState d0) d0 days).1

/-- The sorted candidate list the simulator builds for entry on the day with
index `k` of `dates` (meaningful for `1 ≤ k < dates.length`; junk `[]`
outside that range): the state is rolled forward through day `k - 1`, then
the day-`k` exit pass runs and the candidates are collected and sorted. -/
def candidateListAt (data : List (ℕ × SymTable)) (threshold : ℤ) (maxPos stop : ℚ)
    (dates : List ℕ) (k : ℕ) : List (ℕ × ℚ × ℚ) :=
  match dates with
  | [] => []
  | d0 :: rest =>
    match rest[k - 1]? with
    | none => []
    | some date =>
      let st := runDays data threshold maxPos stop (initState d0) d0 (rest.take (k - 1))
      dayCandidates data threshold stop st.1 st.2 date

/-! ### Performance evaluator (source lines 308-331)

The equity curve is the `equity` column of the history; daily returns are
`pct_change().dropna()`.  The annualized Sharpe ratio needs `sqrt`, so the
ratio-valued definitions live in `ℝ` (the source computes with floats
approximating these reals); everything else stays in `ℚ`.  A pandas
`Series.std()` is the sample standard deviation (`ddof = 1`), which is `NaN`
on fewer than two observations — the source's guard
`if returns.std() and not isnan(returns.std())` therefore returns `0.0`
exactly when the return list has fewer than two entries or zero variance,
which is the `if` guard below. -/

def equityCurve (st : SimState) : List ℚ :=
  st.history.map (·.equity)

/-- Daily returns of a curve: `curve.pct_change().dropna()`.  (A zero curve
value would produce an IEEE infinity in the source; `ℚ` division by zero
gives `0`.  Equity curves start at the positive initial capital, and no
claim depends on this degenerate point.) -/
def returnsOf (curve : List ℚ) : List ℚ :=
  (curve.zip curve.tail).map fun ab => ab.2 / ab.1 - 1

def listMean (l : List ℚ) : ℚ :=
  l.sum / l.length

/-- Sample variance with `ddof = 1` (the square of pandas `Series.std()`);
junk `0` on fewer than two observations, where pandas yields `NaN` — the
length guard is always checked alongside. -/
def svar (l : List ℚ) : ℚ :=
  if l.length ≤ 1 then 0
  else (l.map fun x => (x - listMean l) ^ 2).sum / ((l.length : ℚ) - 1)

/-- The shared ratio formula of source lines 319-330:
`sqrt(252) * mean / std` guarded to `0.0` when the standard deviation is
zero or undefined.  Applied to the strategy returns it is
`strategy_sharpe`; applied to the active returns it is the information
ratio. -/
noncomputable def sharpeOfReturns (returns : List ℚ) : ℝ :=
  if returns.length ≤ 1 ∨ svar returns = 0 then 0
  else Real.sqrt (TRADING_DAYS : ℝ) * (listMean returns : ℝ) / Real.sqrt ((svar returns : ℝ))

/-- `strategy_sharpe` of source lines 319-323. -/
noncomputable def strategy_sharpe (curve : List ℚ) : ℝ :=
  sharpeOfReturns (returnsOf curve)

/-- `active_returns = strat_aligned - bench_aligned` (source lines 324-325).
Both return series sit on the same date index (the benchmark series is
total and reindexed to the strategy curve's index), so the inner join is a
pointwise difference. -/
def active_returns (strategyCurve benchmarkCurve : List ℚ) : List ℚ :=
  (returnsOf strategyCurve).zipWith (· - ·) (returnsOf benchmarkCurve)

/-- `info_ratio` of source lines 326-330; named without the source's
suffix for lexical reasons. -/
noncomputable def information_rat (strategyCurve benchmarkCurve : List ℚ) : ℝ :=
  sharpeOfReturns (active_returns strategyCurve benchmarkCurve)

/-- The benchmark curve of source line 312: the benchmark closes on the
simulated dates, rescaled by the close on the global first trading date
(index `0`) times the initial capital. -/
def benchmarkCurve (bench : ℕ → ℚ) (dates : List ℕ) : List ℚ :=
  dates.map fun d => bench d / bench 0 * INITIAL_CAPITAL

/-- Total return of a curve (source lines 315-316):
`_safe_div(curve.iloc[-1], INITIAL_CAPITAL) - 1`. -/
def total_return (curve : List ℚ) : ℚ :=
  safe_div (curve.getLastD 0) INITIAL_CAPITAL - 1

/-! ### Walk-forward threshold selection (source lines 368-400)

`_select_threshold_for_train` simulates the training date range once per
grid threshold and keeps the first threshold attaining the maximal
`strategy_sharpe + excess_return_pct / 100`.  The source reads the two
metrics from the results dict, where they are stored rounded to a fixed
number of decimals (`round(x, 3)` and `round(x, 2)`); the rounding is a
fixed deterministic function of the same value and is omitted here. -/

/-- The tuning objective for one threshold: run the simulator on the
training dates and combine `strategy_sharpe + excess_return_pct / 100`
(source line 385).  `0` in the degenerate case where the source would have
raised before reaching the selection loop. -/
noncomputable def simScore (data : List (ℕ × SymTable)) (bench : ℕ → ℚ)
    (dates : List ℕ) (threshold : ℤ) : ℝ :=
  match simulate_on_dates data threshold MAX_POSITION_PCT STOP_LOSS_PCT dates with
  | none => 0
  | some st =>
    let curve := equityCurve st
    let excess_return_pct := (total_return curve - total_return (benchmarkCurve bench dates)) * 100
    strategy_sharpe curve + (excess_return_pct : ℝ) / 100

/-- The loop state of `_select_threshold_for_train`: current best threshold,
its score, remaining grid.  The update condition `score > best_score`
(strict) keeps the earlier threshold on ties. -/
def selectThresholdGo {α : Type} [LinearOrder α] (f : ℤ → α) : ℤ → α → List ℤ → ℤ
  | best, _, [] => best
  | best, bestScore, t :: ts =>
    if bestScore < f t then selectThresholdGo f t (f t) ts
    else selectThresholdGo f best bestScore ts

/-- The selection loop of source lines 375-390 over an abstract objective
`f`: the first grid element always becomes the initial best
(`best_metrics is None` on the first iteration), later elements replace it
only on a strictly larger score.  Junk `0` on the empty grid, where the
source raises `threshold_grid must contain at least one threshold` before
reaching this loop. -/
def selectThreshold {α : Type} [LinearOrder α] (f : ℤ → α) : List ℤ → ℤ
  | [] => 0
  | t :: ts => selectThresholdGo f t (f t) ts

/-- `_select_threshold_for_train` (source lines 368-390), returning the
selected threshold. -/
noncomputable def select_threshold_for_train (data : List (ℕ × SymTable)) (bench : ℕ → ℚ)
    (train_dates : List ℕ) (grid : List ℤ) : ℤ :=
  selectThreshold (simScore data bench train_dates) grid

/-- The training date range of walk-forward window `N` (source lines
414-419): `all_dates[index : index + train_days]` with
`index = N * step_days`, as indices into the global calendar. -/
def train_dates_of (trainDays stepDays N : ℕ) : List ℕ :=
  List.range' (N * stepDays) trainDays

/-! ### Feature engine (`calculate_features`, source lines 85-119)

One symbol's raw OHLCV series are total functions of the global date index
(a raw `NaN` in the source is forward-filled away before the simulator runs;
we model already-clean series).  Each derived column at date `i` is defined
from raw values at dates `≤ i` only; a pandas `NaN` (insufficient lookback,
and the degenerate divisions noted below) is `none`.

Degenerate divisions: pandas produces `±inf` (not `NaN`) when a nonzero
value is divided by zero, which can reach a score only when an entire price
or volume window is exactly zero; we conservatively model every
zero-denominator feature as undefined.  No claim depends on these points:
the scoring claims quantify over abstract feature rows, and the
walk-forward claims are congruence properties that hold for any
deterministic function of the price prefix. -/

structure RawSeries where
  opn : ℕ → ℚ
  close : ℕ → ℚ
  high : ℕ → ℚ
  low : ℕ → ℚ
  volume : ℕ → ℚ

/-- Sum of `f` over the `n` dates ending at `i` (the rolling window
`[i - n + 1 .. i]`; callers guard `n - 1 ≤ i`). -/
def windowSum (f : ℕ → ℚ) (i n : ℕ) : ℚ :=
  ((List.range n).map fun k => f (i - k)).sum

/-- `Close.pct_change(n)`: defined from index `n` on. -/
def ret_n (c : ℕ → ℚ) (n i : ℕ) : Option ℚ :=
  if n ≤ i then some (c i / c (i - n) - 1) else none

/-- `ret_5d` (source line 92). -/
def ret_5d (c : ℕ → ℚ) (i : ℕ) : Option ℚ :=
  ret_n c 5 i

/-- `ret_20d` (source line 93). -/
def ret_20d (c : ℕ → ℚ) (i : ℕ) : Option ℚ :=
  ret_n c 20 i

/-- `Close.rolling(window=n).mean()`: defined once the window is full. -/
def sma_n (c : ℕ → ℚ) (n i : ℕ) : Option ℚ :=
  if n - 1 ≤ i then some (windowSum c i n / n) else none

/-- `dist_sma_n = (Close - sma_n) / sma_n` (source lines 96-97); undefined
where the mean is (and, degenerately, where the mean is zero). -/
def dist_sma (c : ℕ → ℚ) (n i : ℕ) : Option ℚ :=
  (sma_n c n i).bind fun s => if s = 0 then none else some ((c i - s) / s)

/-- Day-over-day gain `delta.where(delta > 0, 0.0)` (source lines 99-100);
the undefined first difference is replaced by `0` by `where`. -/
def gainAt (c : ℕ → ℚ) : ℕ → ℚ
  | 0 => 0
  | i + 1 => max (c (i + 1) - c i) 0

/-- Day-over-day loss `-delta.where(delta < 0, 0.0)` (source line 101). -/
def lossAt (c : ℕ → ℚ) : ℕ → ℚ
  | 0 => 0
  | i + 1 => max (c i - c (i + 1)) 0

/-- `gains.ewm(alpha=1/14, adjust=False).mean()` (source line 102): the
recursive exponentially weighted mean `y[0] = x[0]`,
`y[i] = (13/14) y[i-1] + (1/14) x[i]`. -/
def avg_gain (c : ℕ → ℚ) : ℕ → ℚ
  | 0 => gainAt c 0
  | i + 1 => (13 / 14) * avg_gain c i + (1 / 14) * gainAt c (i + 1)

/-- `losses.ewm(alpha=1/14, adjust=False).mean()` (source line 103). -/
def avg_loss (c : ℕ → ℚ) : ℕ → ℚ
  | 0 => lossAt c 0
  | i + 1 => (13 / 14) * avg_loss c i + (1 / 14) * lossAt c (i + 1)

/-- `rsi_14 = 100 - 100 / (1 + avg_gain / avg_loss)` (source lines 104-105)
with `min_periods=14` (undefined before index 13).  When `avg_loss` is zero
pandas produces `rs = inf` and `rsi = 100` (or `NaN` when `avg_gain` is
zero as well, a flat prefix). -/
def rsi_14 (c : ℕ → ℚ) (i : ℕ) : Option ℚ :=
  if i < 13 then none
  else if avg_loss c i = 0 then
    if avg_gain c i = 0 then none else some 100
  else some (100 - 100 / (1 + avg_gain c i / avg_loss c i))

/-- True range (source lines 107-110); at index 0 the two previous-close
terms are `NaN` and pandas' `max(axis=1)` skips them. -/
def trueRange (c h l : ℕ → ℚ) : ℕ → ℚ
  | 0 => h 0 - l 0
  | i + 1 => max (h (i + 1) - l (i + 1)) (max |h (i + 1) - c i| |l (i + 1) - c i|)

/-- `atr_14 = tr.rolling(window=14).mean()` (source line 111). -/
def atr_14 (c h l : ℕ → ℚ) (i : ℕ) : Option ℚ :=
  if 13 ≤ i then some (windowSum (trueRange c h l) i 14 / 14) else none

/-- `atr_pct = (atr_14 / Close).replace(±inf, NaN)` (source line 112):
undefined where the close is zero. -/
def atr_pct (r : RawSeries) (i : ℕ) : Option ℚ :=
  (atr_14 r.close r.high r.low i).bind fun a =>
    if r.close i = 0 then none else some (a / r.close i)

/-- `vol_20d_avg = Volume.rolling(20).mean().shift(1)` (source line 114):
the mean of the previous 20 days' volume, excluding today. -/
def vol_20d_avg (v : ℕ → ℚ) (i : ℕ) : Option ℚ :=
  if 20 ≤ i then some (windowSum v (i - 1) 20 / 20) else none

/-- `rel_vol = Volume / vol_20d_avg` (source line 115); undefined where the
baseline is (degenerately: where it is zero). -/
def rel_vol (r : RawSeries) (i : ℕ) : Option ℚ :=
  (vol_20d_avg r.volume i).bind fun a =>
    if a = 0 then none else some (r.volume i / a)

/-- Daily close-over-close return `Close.pct_change()` at `i ≥ 1` (the
`i = 0` value is never read by a full window). -/
def dailyRet (c : ℕ → ℚ) (i : ℕ) : ℚ :=
  c i / c (i - 1) - 1

/-- The square of `vol_20d = pct_change().rolling(20).std() * sqrt(252)`
(source line 117): `252` times the sample variance (`ddof = 1`) of the last
20 daily returns.  `vol_20d` itself is irrational (`sqrt`); the engine only
ever compares it against nonnegative thresholds, so we carry its square and
compare against squared thresholds, which is equivalent — see
`regime_add_sq_eq` below. -/
def vol_20d_sq (c : ℕ → ℚ) (i : ℕ) : Option ℚ :=
  if 20 ≤ i then
    some ((TRADING_DAYS : ℚ) *
      (windowSum (fun j => (dailyRet c j - windowSum (dailyRet c) i 20 / 20) ^ 2) i 20 / 19))
  else none

/-! ### Scoring function (`score_row`, source lines 122-163)

`score_row` is applied to each feature-table row; `row.isna().any()` makes
the score `NaN` whenever any of the 16 columns is.  The sequential
accumulation of the source body is kept as-is. -/

/-- One row of the feature table: the 16 columns `calculate_features`
produces, each possibly `NaN`. -/
structure FeatureRow where
  close : Option ℚ
  high : Option ℚ
  low : Option ℚ
  volume : Option ℚ
  ret_5d : Option ℚ
  ret_20d : Option ℚ
  sma_50 : Option ℚ
  sma_200 : Option ℚ
  dist_sma_50 : Option ℚ
  dist_sma_200 : Option ℚ
  rsi_14 : Option ℚ
  atr_14 : Option ℚ
  atr_pct : Option ℚ
  vol_20d_avg : Option ℚ
  rel_vol : Option ℚ
  vol_20d : Option ℚ
deriving DecidableEq

/-- `row.isna().any()` (source line 123). -/
def FeatureRow.anyNone (row : FeatureRow) : Prop :=
  row.close = none ∨ row.high = none ∨ row.low = none ∨ row.volume = none ∨
  row.ret_5d = none ∨ row.ret_20d = none ∨ row.sma_50 = none ∨ row.sma_200 = none ∨
  row.dist_sma_50 = none ∨ row.dist_sma_200 = none ∨ row.rsi_14 = none ∨
  row.atr_14 = none ∨ row.atr_pct = none ∨ row.vol_20d_avg = none ∨
  row.rel_vol = none ∨ row.vol_20d = none

instance (row : FeatureRow) : Decidable row.anyNone := by
  unfold FeatureRow.anyNone; infer_instance

/-- The sequential point accumulation of source lines 126-152: the
momentum, quality and catalyst buckets (everything before the regime
bucket). -/
def score_pre_regime (d50 rsi r5 r20 d200 ap rv : ℚ) : ℚ :=
  let s0 : ℚ := 0
  let s1 := if 0 < d50 then s0 + 10 else s0
  let s2 := if 50 < rsi then s1 + 8 else s1
  let s3 := if 0 < r5 then s2 + 7 else s2
  let s4 := if 0 < r20 then s3 + 10 else s3
  let s5 := if 0 < d200 then s4 + 10 else s4
  let s6 := if 45 ≤ rsi ∧ rsi ≤ 70 then s5 + 8 else s5
  let s7 := if ap < 4 / 100 then s6 + 7 else s6
  let s8 := if 18 / 10 < rv then s7 + 12 else if 12 / 10 < rv then s7 + 8 else s7
  if 0 < r5 ∧ 0 < r20 then s8 + 8 else s8

/-- The regime bucket of source lines 156-161, accumulated onto `s`. -/
def regime_add (v r20 s : ℚ) : ℚ :=
  if v ≤ 25 / 100 ∧ 0 < r20 then s + 20
  else if v ≤ 35 / 100 ∧ 0 < r20 then s + 12
  else if v ≤ 45 / 100 then s + 6
  else s

/-- The regime bucket in terms of the squared volatility (used by the
feature pipeline, where `vol_20d` is carried squared): the thresholds are
squared.  `regime_add_sq_eq` shows the two agree. -/
def regime_add_sq (vsq r20 s : ℚ) : ℚ :=
  if vsq ≤ 1 / 16 ∧ 0 < r20 then s + 20
  else if vsq ≤ 49 / 400 ∧ 0 < r20 then s + 12
  else if vsq ≤ 81 / 400 then s + 6
  else s

/-- `score_row` (source lines 122-163): `NaN` when any column is, otherwise
the accumulated points clamped to `[0, 100]`.  In the defined branch every
field is `some`, so `Option.getD` reads off the values. -/
def score_row (row : FeatureRow) : Option ℚ :=
  if row.anyNone then none
  else some (min 100 (max 0
    (regime_add (row.vol_20d.getD 0) (row.ret_20d.getD 0)
      (score_pre_regime (row.dist_sma_50.getD 0) (row.rsi_14.getD 0) (row.ret_5d.getD 0)
        (row.ret_20d.getD 0) (row.dist_sma_200.getD 0) (row.atr_pct.getD 0)
        (row.rel_vol.getD 0)))))

/-- The per-date score of the feature pipeline
(`features["score"] = features.apply(score_row, axis=1)`, source line 182):
defined exactly when all 16 feature columns are, with the regime bucket
evaluated through the squared volatility. -/
def scoreAt (r : RawSeries) (i : ℕ) : Option ℚ := do
  let r5 ← ret_5d r.close i
  let r20 ← ret_20d r.close i
  let _s50 ← sma_n r.close 50 i
  let _s200 ← sma_n r.close 200 i
  let d50 ← dist_sma r.close 50 i
  let d200 ← dist_sma r.close 200 i
  let rsi ← rsi_14 r.close i
  let _a14 ← atr_14 r.close r.high r.low i
  let ap ← atr_pct r i
  let _va ← vol_20d_avg r.volume i
  let rv ← rel_vol r i
  let vsq ← vol_20d_sq r.close i
  pure (min 100 (max 0 (regime_add_sq vsq r20 (score_pre_regime d50 rsi r5 r20 d200 ap rv))))

/-- The forward-filled score column
(`features.reindex(dates).ffill()`, source line 187): a date with an
undefined score inherits the most recent defined one. -/
def scoreFfillAt (r : RawSeries) : ℕ → Option ℚ
  | 0 => scoreAt r 0
  | i + 1 =>
    match scoreAt r (i + 1) with
    | some s => some s
    | none => scoreFfillAt r i

/-- `_build_symbol_data` (source lines 166-192) for one list of raw
per-symbol series: the open/close series (reindexing and forward-filling a
total series is the identity) together with the forward-filled score
column. -/
def buildSymbolData (raw : List (ℕ × RawSeries)) : List (ℕ × SymTable) :=
  raw.map fun sr => (sr.1, ⟨sr.2.opn, sr.2.close, scoreFfillAt sr.2⟩)

/-- The threshold the walk-forward orchestrator selects for window `N`
(source lines 413-429): `_select_threshold_for_train` on the window's
training date range, over the symbol tables built from the raw data. -/
noncomputable def selected_threshold_for_window (raw : List (ℕ × RawSeries)) (bench : ℕ → ℚ)
    (grid : List ℤ) (trainDays stepDays N : ℕ) : ℤ :=
  select_threshold_for_train (buildSymbolData raw) bench (train_dates_of trainDays stepDays N) grid

/-! ### Spec-side definitions

The following definitions transcribe sentences of the specification (not
the source); each is compared against the corresponding source-derived
definition in the theorems below. -/

/-- Modelled from the spec: the momentum bucket, `+10` if price above the
50-day SMA (the row carries the signed distance `dist_sma_50`), `+8` if
RSI > 50, `+7` if the 5-day return is positive, `+10` if the 20-day return
is positive. -/
def momentum_points (d50 rsi r5 r20 : ℚ) : ℚ :=
  (if 0 < d50 then 10 else 0) + (if 50 < rsi then 8 else 0) +
    (if 0 < r5 then 7 else 0) + (if 0 < r20 then 10 else 0)

/-- Modelled from the spec: the quality bucket, `+10` if price above the
200-day SMA, `+8` if RSI in `[45, 70]`, `+7` if ATR% below 4%. -/
def quality_points (d200 rsi ap : ℚ) : ℚ :=
  (if 0 < d200 then 10 else 0) + (if 45 ≤ rsi ∧ rsi ≤ 70 then 8 else 0) +
    (if ap < 4 / 100 then 7 else 0)

/-- Modelled from the spec: the catalyst bucket, `+12` if relative volume
above 1.8 else `+8` if above 1.2; `+8` if both returns positive. -/
def catalyst_points (rv r5 r20 : ℚ) : ℚ :=
  (if 18 / 10 < rv then 12 else if 12 / 10 < rv then 8 else 0) +
    (if 0 < r5 ∧ 0 < r20 then 8 else 0)

/-- Modelled from the spec: the regime bucket, `+20` if annualized 20-day
volatility at most 25% with positive 20-day return, else `+12` if at most
35% with positive return, else `+6` if at most 45%. -/
def regime_points (v r20 : ℚ) : ℚ :=
  if v ≤ 25 / 100 ∧ 0 < r20 then 20
  else if v ≤ 35 / 100 ∧ 0 < r20 then 12
  else if v ≤ 45 / 100 then 6
  else 0

/-- Modelled from the spec: the score as the sum of the four independent
point buckets, clamped to `[0, 100]`, undefined when any input field is. -/
def score_spec (row : FeatureRow) : Option ℚ :=
  if row.anyNone then none
  else some (min 100 (max 0
    (momentum_points (row.dist_sma_50.getD 0) (row.rsi_14.getD 0) (row.ret_5d.getD 0)
        (row.ret_20d.getD 0) +
      quality_points (row.dist_sma_200.getD 0) (row.rsi_14.getD 0) (row.atr_pct.getD 0) +
      catalyst_points (row.rel_vol.getD 0) (row.ret_5d.getD 0) (row.ret_20d.getD 0) +
      regime_points (row.vol_20d.getD 0) (row.ret_20d.getD 0))))

/-- Modelled from the spec: the claimed entry quantity
`floor(target_notional / exec_price)` with
`target_notional = min(equity * max_position_pct, remaining spendable
cash)` — the source instead subtracts the fee before dividing. -/
def spec_entry_qty (equity spendable exec_price : ℚ) : ℕ :=
  ⌊min (equity * MAX_POSITION_PCT) spendable / exec_price⌋₊

/-! ### Agreement predicates for the dependence (hyperproperty) claims -/

/-- Two simulator inputs with the same symbols whose open, close and score
tables agree on the dates satisfying `Po`, `Pc` and `Ps` respectively. -/
def DataAgree (data₁ data₂ : List (ℕ × SymTable)) (Po Pc Ps : ℕ → Prop) : Prop :=
  List.Forall₂ (fun a b => a.1 = b.1 ∧
    (∀ d, Po d → a.2.opn d = b.2.opn d) ∧
    (∀ d, Pc d → a.2.close d = b.2.close d) ∧
    (∀ d, Ps d → a.2.score d = b.2.score d)) data₁ data₂

/-- Two raw universes with the same symbols whose five OHLCV series agree
on every date index below `n`. -/
def RawAgreeBelow (raw₁ raw₂ : List (ℕ × RawSeries)) (n : ℕ) : Prop :=
  List.Forall₂ (fun a b => a.1 = b.1 ∧ ∀ i < n,
    a.2.opn i = b.2.opn i ∧ a.2.close i = b.2.close i ∧ a.2.high i = b.2.high i ∧
      a.2.low i = b.2.low i ∧ a.2.volume i = b.2.volume i) raw₁ raw₂

/-! ### Concrete scenarios

Small simulator inputs used by the counterexamples and witnesses below.
Dates are `0, 1, 2`; the default parameters apply (`threshold 70`,
`max_position_pct 0.15`, `stop_loss_pct 0.08`).

In `sData95`/`sData90` symbol `0` scores `80` on date `0` and `90` on
date `1` and opens at `100` on date `1` and `96` on date `2`; the two
tables differ only in the close on date `2` (`95` vs `90`).  Both runs buy
14 shares at `100.05` on day 1 (entry price `100 * 1.0005`; the stop
threshold is `100.05 * 0.92 = 92.046`): the day-2 close `95` keeps the
position, `90` stops it out. -/

def sTable95 : SymTable :=
  ⟨fun d => if d = 1 then 100 else 96,
   fun d => if d = 2 then 95 else 100,
   fun d => if d = 0 then some 80 else if d = 1 then some 90 else none⟩

def sTable90 : SymTable :=
  ⟨fun d => if d = 1 then 100 else 96,
   fun d => if d = 2 then 90 else 100,
   fun d => if d = 0 then some 80 else if d = 1 then some 90 else none⟩

def sData95 : List (ℕ × SymTable) := [(0, sTable95)]

def sData90 : List (ℕ × SymTable) := [(0, sTable90)]

/-- A second symbol that never qualifies (undefined score); two variants
whose closes differ on date `2` (`50` vs `60`). -/
def idleTable50 : SymTable :=
  ⟨fun _ => 10, fun d => if d = 2 then 50 else 40, fun _ => none⟩

def idleTable60 : SymTable :=
  ⟨fun _ => 10, fun d => if d = 2 then 60 else 40, fun _ => none⟩

/-- Two-symbol inputs that differ only in the close, on date `2`, of
symbol `1` — a symbol that is never held on day 2. -/
def pairData50 : List (ℕ × SymTable) := [(0, sTable95), (1, idleTable50)]

def pairData60 : List (ℕ × SymTable) := [(0, sTable95), (1, idleTable60)]

/-- The fee-edge scenario: symbol `0` scores `80` on date `0` and opens on
date `1` at `1000000/667`, so the execution price is exactly
`1000000/667 * 2001/2000 = 1500` and the target notional is
`min(10000 * 0.15, 8000) = 1500`.  The spec formula gives
`⌊1500 / 1500⌋ = 1` share costing `1501 ≤ 10000`, but the source computes
`⌊(1500 - 1) / 1500⌋ = 0` and skips the candidate. -/
def feeEdgeData : List (ℕ × SymTable) :=
  [(0, ⟨fun _ => 1000000 / 667, fun _ => 100, fun d => if d = 0 then some 80 else none⟩)]

/-- A fully defined feature row scoring the maximum: every bucket fires
(`dist_sma_50 = 1 > 0`, `rsi = 60`, positive returns, `dist_sma_200 = 1`,
`atr_pct = 1/100`, `rel_vol = 2`, `vol_20d = 1/10`). -/
def fullRow : FeatureRow :=
  ⟨some 100, some 101, some 99, some 1000, some 1, some 1, some 90, some 80,
    some 1, some 1, some 60, some 2, some (1 / 100), some 900, some 2, some (1 / 10)⟩

/-- Raw one-symbol universes for the walk-forward witness: all five series
agree below date `2` and differ from date `2` on. -/
def rawSeriesFlat : RawSeries :=
  ⟨fun _ => 10, fun _ => 10, fun _ => 11, fun _ => 9, fun _ => 100⟩

def rawSeriesBumped : RawSeries :=
  ⟨fun i => if i < 2 then 10 else 20, fun i => if i < 2 then 10 else 20,
   fun i => if i < 2 then 11 else 21, fun i => if i < 2 then 9 else 19,
   fun i => if i < 2 then 100 else 200⟩

def rawFlat : List (ℕ × RawSeries) := [(0, rawSeriesFlat)]

def rawBumped : List (ℕ × RawSeries) := [(0, rawSeriesBumped)]

/-! ## Theorems -/

attribute [local semireducible] Rat.add Rat.sub Rat.mul Rat.inv

/-- The Boolean form of the stop test, for stating filters. -/
theorem stopTriggered_decide (stop entry close : ℚ) :
    decide (stopTriggered stop entry close) = true ↔ close ≤ entry * (1 - stop) := by
  simp [stopTriggered]

/-- Closed form of the exit pass: the triggered positions are filtered out,
each contributing its clamped proceeds and one `SELL_STOP` trade. -/
theorem exitsPass_eq (data : List (ℕ × SymTable)) (stop : ℚ) (date : ℕ)
    (ps : List (ℕ × Position)) :
    exitsPass data stop date ps =
      (((ps.filter fun sp =>
            decide (stopTriggered stop sp.2.entry_price (closeOf data sp.1 date))).map
          fun sp =>
            max 0 ((sp.2.qty : ℚ) * (closeOf data sp.1 date * (1 - slippage_factor)) -
              FEE_PER_TRADE)).sum,
        ps.filter fun sp =>
          !decide (stopTriggered stop sp.2.entry_price (closeOf data sp.1 date)),
        (ps.filter fun sp =>
            decide (stopTriggered stop sp.2.entry_price (closeOf data sp.1 date))).map
          fun sp =>
            ⟨date, sp.1, Side.sellStop, sp.2.qty,
              closeOf data sp.1 date * (1 - slippage_factor), sp.2.entry_date⟩) := by
  induction ps with
  | nil => simp [exitsPass]
  | cons hd tl ih =>
    by_cases h : stopTriggered stop hd.2.entry_price (closeOf data hd.1 date)
    · simp [exitsPass, h, ih, List.filter_cons]
    · simp [exitsPass, h, ih, List.filter_cons]

/-- The exit pass credits a nonnegative amount of cash. -/
theorem exitsPass_nonneg (data : List (ℕ × SymTable)) (stop : ℚ) (date : ℕ)
    (ps : List (ℕ × Position)) : 0 ≤ (exitsPass data stop date ps).1 := by
  induction ps with
  | nil => simp [exitsPass]
  | cons hd tl ih =>
    simp only [exitsPass]
    split
    · exact add_nonneg (le_max_left _ _) ih
    · exact ih

/-- The entry pass never spends more cash than it has. -/
theorem entriesPass_cash_nonneg (maxPos equity : ℚ) (date : ℕ) :
    ∀ (cands : List (ℕ × ℚ × ℚ)) (cash spendable : ℚ) (pos : List (ℕ × Position)) (opened : ℕ),
      0 ≤ cash → 0 ≤ (entriesPass maxPos equity date cands cash spendable pos opened).1
  | [], cash, spendable, pos, opened, h => h
  | (sym, sc, next_open) :: rest, cash, spendable, pos, opened, h => by
    simp only [entriesPass]
    split
    · exact h
    · split
      · exact entriesPass_cash_nonneg maxPos equity date rest cash spendable pos opened h
      · split
        · exact entriesPass_cash_nonneg maxPos equity date rest cash spendable pos opened h
        · rename_i hqty hcost
          exact entriesPass_cash_nonneg maxPos equity date rest _ _ _ _
            (by linarith [not_lt.mp hcost])

/-- Day steps preserve nonnegative cash. -/
theorem dayStep_cash_nonneg (data : List (ℕ × SymTable)) (threshold : ℤ) (maxPos stop : ℚ)
    (st : SimState) (prev date : ℕ) (h : 0 ≤ st.cash) :
    0 ≤ (dayStep data threshold maxPos stop st prev date).cash := by
  unfold dayStep
  exact entriesPass_cash_nonneg _ _ _ _ _ _ _ _
    (add_nonneg h (exitsPass_nonneg data stop date st.positions))

/-- All snapshots recorded by a day step either predate it or carry the
step's final (nonnegative) cash and satisfy the mark-to-market equation. -/
theorem dayStep_history (data : List (ℕ × SymTable)) (threshold : ℤ) (maxPos stop : ℚ)
    (st : SimState) (prev date : ℕ) (snap : Snapshot)
    (hmem : snap ∈ (dayStep data threshold maxPos stop st prev date).history) :
    snap ∈ st.history ∨
      (snap.equity = snap.cash + markValue data snap.held snap.date ∧
        snap.positions = snap.held.length ∧
        snap.cash = (dayStep data threshold maxPos stop st prev date).cash) := by
  unfold dayStep at hmem ⊢
  simp only [List.mem_append, List.mem_singleton] at hmem
  rcases hmem with h | h
  · exact Or.inl h
  · subst h
    exact Or.inr ⟨rfl, rfl, rfl⟩

/-- The running invariant behind C4 and C9: every snapshot in the history
of a run satisfies the mark-to-market equation, records the position count
and has nonnegative cash; final cash is nonnegative as well. -/
theorem runDays_invariant (data : List (ℕ × SymTable)) (threshold : ℤ) (maxPos stop : ℚ) :
    ∀ (days : List ℕ) (st : SimState) (prev : ℕ),
      0 ≤ st.cash →
      (∀ snap ∈ st.history,
        snap.equity = snap.cash + markValue data snap.held snap.date ∧
          snap.positions = snap.held.length ∧ 0 ≤ snap.cash) →
      0 ≤ (runDays data threshold maxPos stop st prev days).1.cash ∧
      ∀ snap ∈ (runDays data threshold maxPos stop st prev days).1.history,
        snap.equity = snap.cash + markValue data snap.held snap.date ∧
          snap.positions = snap.held.length ∧ 0 ≤ snap.cash
  | [], st, prev, hcash, hhist => ⟨hcash, hhist⟩
  | d :: ds, st, prev, hcash, hhist => by
    refine runDays_invariant data threshold maxPos stop ds _ d
      (dayStep_cash_nonneg data threshold maxPos stop st prev d hcash) ?_
    intro snap hsnap
    rcases dayStep_history data threshold maxPos stop st prev d snap hsnap with h | ⟨h1, h2, h3⟩
    · exact hhist snap h
    · exact ⟨h1, h2, h3 ▸ dayStep_cash_nonneg data threshold maxPos stop st prev d hcash⟩

/-- C4: for every simulated trading day, the end-of-day `EquitySnapshot`
satisfies `equity = cash + Σ position.qty * close[date]` (the ghost `held`
field records the position of the map at snapshot time, and the snapshot's
count field equals its length); the invariant holds at every snapshot of
the equity history of every run, including the seeded day-0 snapshot. -/
theorem equity_snapshot_invariant (data : List (ℕ × SymTable)) (threshold : ℤ)
    (maxPos stop : ℚ) (d0 : ℕ) (days : List ℕ) (snap : Snapshot)
    (hmem : snap ∈ (runSim data threshold maxPos stop d0 days).history) :
    snap.equity = snap.cash + markValue data snap.held snap.date ∧
      snap.positions = snap.held.length := by
  have h := (runDays_invariant data threshold maxPos stop days (initState d0) d0
    (by norm_num [initState, INITIAL_CAPITAL])
    (by
      intro s hs
      simp only [initState, List.mem_singleton] at hs
      subst hs
      refine ⟨?_, rfl, by norm_num [INITIAL_CAPITAL]⟩
      simp [markValue])).2 snap hmem
  exact ⟨h.1, h.2.1⟩

/-- Witness for the snapshot invariant: the day-0 snapshot of a concrete
run satisfies the mark-to-market equation. -/
theorem equity_snapshot_invariant_witness :
    (⟨0, INITIAL_CAPITAL, INITIAL_CAPITAL, 0, []⟩ : Snapshot).equity =
        (⟨0, INITIAL_CAPITAL, INITIAL_CAPITAL, 0, []⟩ : Snapshot).cash +
          markValue sData90 (⟨0, INITIAL_CAPITAL, INITIAL_CAPITAL, 0, []⟩ : Snapshot).held
            (⟨0, INITIAL_CAPITAL, INITIAL_CAPITAL, 0, []⟩ : Snapshot).date ∧
      (⟨0, INITIAL_CAPITAL, INITIAL_CAPITAL, 0, []⟩ : Snapshot).positions =
        (⟨0, INITIAL_CAPITAL, INITIAL_CAPITAL, 0, []⟩ : Snapshot).held.length :=
  equity_snapshot_invariant sData90 ENTRY_THRESHOLD MAX_POSITION_PCT STOP_LOSS_PCT 0 [1, 2]
    ⟨0, INITIAL_CAPITAL, INITIAL_CAPITAL, 0, []⟩ (by decide)

/-- C9: cash is never negative: exit proceeds are clamped below at zero
before being credited, and an entry happens only when its total cost does
not exceed current cash; consequently the final cash and the cash of every
snapshot in the equity history are nonnegative. -/
theorem cash_never_negative :
    (∀ (data : List (ℕ × SymTable)) (threshold : ℤ) (maxPos stop : ℚ) (d0 : ℕ)
        (days : List ℕ),
      0 ≤ (runSim data threshold maxPos stop d0 days).cash ∧
        ∀ snap ∈ (runSim data threshold maxPos stop d0 days).history, 0 ≤ snap.cash) ∧
      ∀ (data : List (ℕ × SymTable)) (stop : ℚ) (date : ℕ) (ps : List (ℕ × Position)),
        0 ≤ (exitsPass data stop date ps).1 := by
  constructor
  · intro data threshold maxPos stop d0 days
    have h := runDays_invariant data threshold maxPos stop days (initState d0) d0
      (by norm_num [initState, INITIAL_CAPITAL])
      (by
        intro s hs
        simp only [initState, List.mem_singleton] at hs
        subst hs
        exact ⟨by simp [markValue], rfl, by norm_num [INITIAL_CAPITAL]⟩)
    exact ⟨h.1, fun snap hs => (h.2 snap hs).2.2⟩
  · exact exitsPass_nonneg

/-- Witness: in the concrete stop-out run the final cash and the day-0
snapshot's cash are nonnegative. -/
theorem cash_never_negative_witness :
    0 ≤ (runSim sData90 ENTRY_THRESHOLD MAX_POSITION_PCT STOP_LOSS_PCT 0 [1, 2]).cash ∧
      0 ≤ (⟨0, INITIAL_CAPITAL, INITIAL_CAPITAL, 0, []⟩ : Snapshot).cash :=
  ⟨(cash_never_negative.1 sData90 ENTRY_THRESHOLD MAX_POSITION_PCT STOP_LOSS_PCT 0 [1, 2]).1,
    (cash_never_negative.1 sData90 ENTRY_THRESHOLD MAX_POSITION_PCT STOP_LOSS_PCT 0 [1, 2]).2
      ⟨0, INITIAL_CAPITAL, INITIAL_CAPITAL, 0, []⟩ (by decide)⟩

/-- C3: a position open at the start of day `t` is stop-loss-exited on `t`
iff that day's close is at or below `entry_price * (1 - stop_loss_pct)`
(the closed form of the exit pass shows the fill at
`close * (1 - slippage)` and the recorded `SELL_STOP` trade), and the
boundary sits exactly at `entry * 0.92` for `stop_loss_pct = 0.08`:
`92.01` does not trigger, `91.99` and the boundary value `92` do. -/
theorem stop_loss_exact_threshold :
    (∀ (data : List (ℕ × SymTable)) (stop : ℚ) (date : ℕ) (ps : List (ℕ × Position)),
        exitsPass data stop date ps =
          (((ps.filter fun sp =>
                decide (stopTriggered stop sp.2.entry_price (closeOf data sp.1 date))).map
              fun sp =>
                max 0 ((sp.2.qty : ℚ) * (closeOf data sp.1 date * (1 - slippage_factor)) -
                  FEE_PER_TRADE)).sum,
            ps.filter fun sp =>
              !decide (stopTriggered stop sp.2.entry_price (closeOf data sp.1 date)),
            (ps.filter fun sp =>
                decide (stopTriggered stop sp.2.entry_price (closeOf data sp.1 date))).map
              fun sp =>
                ⟨date, sp.1, Side.sellStop, sp.2.qty,
                  closeOf data sp.1 date * (1 - slippage_factor), sp.2.entry_date⟩)) ∧
      ¬ stopTriggered STOP_LOSS_PCT 100 (9201 / 100) ∧
      stopTriggered STOP_LOSS_PCT 100 (9199 / 100) ∧
      stopTriggered STOP_LOSS_PCT 100 92 ∧
      ∀ close : ℚ, stopTriggered STOP_LOSS_PCT 100 close ↔ close ≤ 92 := by
  refine ⟨exitsPass_eq, by decide, by decide, by decide, ?_⟩
  intro close
  constructor
  · intro h
    simpa [stopTriggered, STOP_LOSS_PCT] using h
  · intro h
    simpa [stopTriggered, STOP_LOSS_PCT] using h

/-- Every surviving position of the exit pass was already open before it. -/
theorem exitsPass_kept_subset (data : List (ℕ × SymTable)) (stop : ℚ) (date : ℕ)
    (ps : List (ℕ × Position)) :
    ∀ sp ∈ (exitsPass data stop date ps).2.1, sp ∈ ps := by
  rw [exitsPass_eq]
  exact fun sp h => List.mem_of_mem_filter h

/-- Exit trades close positions that were open at the start of the pass:
their ghost entry date is bounded by any bound on the open positions'. -/
theorem exitsPass_trades_entry (data : List (ℕ × SymTable)) (stop : ℚ) (date : ℕ)
    (ps : List (ℕ × Position)) (b : ℕ) (hb : ∀ sp ∈ ps, sp.2.entry_date ≤ b) :
    ∀ T ∈ (exitsPass data stop date ps).2.2,
      T.posEntryDate ≤ b ∧ T.date = date ∧ T.side = Side.sellStop := by
  rw [exitsPass_eq]
  intro T hT
  simp only [List.mem_map] at hT
  obtain ⟨sp, hsp, rfl⟩ := hT
  exact ⟨hb sp (List.mem_of_mem_filter hsp), rfl, rfl⟩

/-- Positions after the entry pass were either already open or were opened
on the pass's day. -/
theorem entriesPass_pos_mem (maxPos equity : ℚ) (date : ℕ) :
    ∀ (cands : List (ℕ × ℚ × ℚ)) (cash spendable : ℚ) (pos : List (ℕ × Position)) (opened : ℕ),
      ∀ sp ∈ (entriesPass maxPos equity date cands cash spendable pos opened).2.1,
        sp ∈ pos ∨ sp.2.entry_date = date
  | [], cash, spendable, pos, opened, sp, h => Or.inl h
  | (sym, sc, next_open) :: rest, cash, spendable, pos, opened, sp, h => by
    revert h
    simp only [entriesPass]
    split
    · exact fun h => Or.inl h
    · split
      · exact fun h => entriesPass_pos_mem maxPos equity date rest _ _ _ _ sp h
      · split
        · exact fun h => entriesPass_pos_mem maxPos equity date rest _ _ _ _ sp h
        · intro h
          rcases entriesPass_pos_mem maxPos equity date rest _ _ _ _ sp h with h' | h'
          · rcases List.mem_append.1 h' with h'' | h''
            · exact Or.inl h''
            · simp only [List.mem_singleton] at h''
              subst h''
              exact Or.inr rfl
          · exact Or.inr h'

/-- Every trade recorded by the entry pass is a same-day `BUY`. -/
theorem entriesPass_trades_buy (maxPos equity : ℚ) (date : ℕ) :
    ∀ (cands : List (ℕ × ℚ × ℚ)) (cash spendable : ℚ) (pos : List (ℕ × Position)) (opened : ℕ),
      ∀ T ∈ (entriesPass maxPos equity date cands cash spendable pos opened).2.2,
        T.side = Side.buy ∧ T.date = date ∧ T.posEntryDate = date
  | [], cash, spendable, pos, opened, T, h => by simp [entriesPass] at h
  | (sym, sc, next_open) :: rest, cash, spendable, pos, opened, T, h => by
    revert h
    simp only [entriesPass]
    split
    · intro h
      simp at h
    · split
      · exact fun h => entriesPass_trades_buy maxPos equity date rest _ _ _ _ T h
      · split
        · exact fun h => entriesPass_trades_buy maxPos equity date rest _ _ _ _ T h
        · intro h
          rcases List.mem_cons.1 h with h' | h'
          · subst h'
            exact ⟨rfl, rfl, rfl⟩
          · exact entriesPass_trades_buy maxPos equity date rest _ _ _ _ T h'

/-- One day step preserves the temporal invariant: open positions were
entered no later than the day just processed, and every `SELL_STOP` trade
ever recorded closes a position entered strictly earlier. -/
theorem dayStep_entry_invariant (data : List (ℕ × SymTable)) (threshold : ℤ)
    (maxPos stop : ℚ) (st : SimState) (prev date : ℕ)
    (hpos : ∀ q ∈ st.positions, q.2.entry_date ≤ prev)
    (htr : ∀ T ∈ st.trades, T.side = Side.sellStop → T.posEntryDate < T.date)
    (hlt : prev < date) :
    (∀ q ∈ (dayStep data threshold maxPos stop st prev date).positions,
        q.2.entry_date ≤ date) ∧
      ∀ T ∈ (dayStep data threshold maxPos stop st prev date).trades,
        T.side = Side.sellStop → T.posEntryDate < T.date := by
  have hkept : ∀ q ∈ (exitsPass data stop date st.positions).2.1, q.2.entry_date ≤ prev :=
    fun q hq => hpos q (exitsPass_kept_subset data stop date st.positions q hq)
  constructor
  · intro q hq
    simp only [dayStep] at hq
    rcases entriesPass_pos_mem maxPos _ date _ _ _ _ _ q hq with h | h
    · exact (hkept q h).trans hlt.le
    · exact h.le
  · intro T hT hside
    simp only [dayStep, List.mem_append] at hT
    rcases hT with (hT | hT) | hT
    · exact htr T hT hside
    · obtain ⟨h1, h2, _⟩ :=
        exitsPass_trades_entry data stop date st.positions prev hpos T hT
      rw [h2]
      exact lt_of_le_of_lt h1 hlt
    · obtain ⟨h1, _, _⟩ := entriesPass_trades_buy maxPos _ date _ _ _ _ _ T hT
      rw [h1] at hside
      cases hside

/-- The temporal invariant holds along any strictly increasing date list. -/
theorem runDays_entry_invariant (data : List (ℕ × SymTable)) (threshold : ℤ)
    (maxPos stop : ℚ) :
    ∀ (days : List ℕ) (st : SimState) (prev : ℕ),
      List.Chain' (· < ·) (prev :: days) →
      (∀ q ∈ st.positions, q.2.entry_date ≤ prev) →
      (∀ T ∈ st.trades, T.side = Side.sellStop → T.posEntryDate < T.date) →
      ∀ T ∈ (runDays data threshold maxPos stop st prev days).1.trades,
        T.side = Side.sellStop → T.posEntryDate < T.date
  | [], st, prev, hchain, hpos, htr => htr
  | d :: ds, st, prev, hchain, hpos, htr => by
    have hlt : prev < d := (List.chain'_cons.1 hchain).1
    have hnext := List.chain'_cons.1 hchain
    obtain ⟨h1, h2⟩ :=
      dayStep_entry_invariant data threshold maxPos stop st prev d hpos htr hlt
    exact runDays_entry_invariant data threshold maxPos stop ds _ d hnext.2 h1 h2

/-- C10: on a strictly increasing date calendar, a position is never
stop-loss-exited on its own entry date: the exit pass of each day runs
before the entry pass, so every `SELL_STOP` trade closes a position whose
entry date (its ghost `posEntryDate`) is strictly earlier than the trade
date — the earliest possible exit is the next trading day.  (A `BUY` trade
carries `posEntryDate = date`, so the `SELL_STOP` never shares its date
with the `BUY` that opened that position.) -/
theorem no_same_day_stop_exit (data : List (ℕ × SymTable)) (threshold : ℤ)
    (maxPos stop : ℚ) (d0 : ℕ) (days : List ℕ)
    (hchain : List.Chain' (· < ·) (d0 :: days)) (T : Trade)
    (hT : T ∈ (runSim data threshold maxPos stop d0 days).trades)
    (hside : T.side = Side.sellStop) :
    T.posEntryDate < T.date := by
  refine runDays_entry_invariant data threshold maxPos stop days (initState d0) d0 hchain
    ?_ ?_ T hT hside
  · intro q hq
    simp [initState] at hq
  · intro T' hT'
    simp [initState] at hT'

/-- Witness: in the concrete stop-out run the `SELL_STOP` trade of day 2
closes the position entered on day 1. -/
theorem no_same_day_stop_exit_witness :
    (⟨2, 0, Side.sellStop, 14, 17991 / 200, 1⟩ : Trade) ∈
        (runSim sData90 ENTRY_THRESHOLD MAX_POSITION_PCT STOP_LOSS_PCT 0 [1, 2]).trades ∧
      (⟨2, 0, Side.sellStop, 14, 17991 / 200, 1⟩ : Trade).posEntryDate <
        (⟨2, 0, Side.sellStop, 14, 17991 / 200, 1⟩ : Trade).date :=
  ⟨by decide,
    no_same_day_stop_exit sData90 ENTRY_THRESHOLD MAX_POSITION_PCT STOP_LOSS_PCT 0 [1, 2]
      (by simp [List.chain'_cons]) ⟨2, 0, Side.sellStop, 14, 17991 / 200, 1⟩ (by decide)
      (by decide)⟩

/-- C2 (amended): a candidate reached by the entry loop (none of the three
break conditions holds) is filled with
`qty = ⌊max(0, target_notional - fee) / exec_price⌋` shares — the fee is
subtracted from the target notional before the truncating division — and
is skipped, leaving cash, positions and the ledger unchanged, exactly when
that quantity is `0` or `qty * exec_price + fee` exceeds available cash. -/
theorem entry_sizing_amended (maxPos equity : ℚ) (date sym : ℕ) (sc next_open : ℚ)
    (rest : List (ℕ × ℚ × ℚ)) (cash spendable : ℚ) (pos : List (ℕ × Position)) (opened : ℕ)
    (hrun : ¬ (MAX_NEW_TRADES_PER_DAY ≤ opened ∨ MAX_OPEN_POSITIONS ≤ pos.length ∨
      spendable ≤ 0)) :
    entriesPass maxPos equity date ((sym, sc, next_open) :: rest) cash spendable pos opened =
      if code_entry_qty maxPos equity spendable next_open = 0 ∨
          cash < entry_total_cost maxPos equity spendable next_open then
        entriesPass maxPos equity date rest cash spendable pos opened
      else
        ((entriesPass maxPos equity date rest
            (cash - entry_total_cost maxPos equity spendable next_open)
            (max 0 (spendable - entry_total_cost maxPos equity spendable next_open))
            (pos ++ [(sym, ⟨code_entry_qty maxPos equity spendable next_open,
              exec_price_of next_open, date⟩)]) (opened + 1)).1,
          (entriesPass maxPos equity date rest
            (cash - entry_total_cost maxPos equity spendable next_open)
            (max 0 (spendable - entry_total_cost maxPos equity spendable next_open))
            (pos ++ [(sym, ⟨code_entry_qty maxPos equity spendable next_open,
              exec_price_of next_open, date⟩)]) (opened + 1)).2.1,
          ⟨date, sym, Side.buy, code_entry_qty maxPos equity spendable next_open,
              exec_price_of next_open, date⟩ ::
            (entriesPass maxPos equity date rest
              (cash - entry_total_cost maxPos equity spendable next_open)
              (max 0 (spendable - entry_total_cost maxPos equity spendable next_open))
              (pos ++ [(sym, ⟨code_entry_qty maxPos equity spendable next_open,
                exec_price_of next_open, date⟩)]) (opened + 1)).2.2) := by
  by_cases hq : code_entry_qty maxPos equity spendable next_open = 0
  · rw [if_pos (Or.inl hq)]
    simp only [entriesPass, if_neg hrun, hq]
    simp
  · by_cases hc : cash < entry_total_cost maxPos equity spendable next_open
    · rw [if_pos (Or.inr hc)]
      simp only [entriesPass, if_neg hrun]
      rw [if_neg hq, if_pos hc]
    · rw [if_neg (by push_neg; exact ⟨hq, not_lt.1 hc⟩)]
      simp only [entriesPass, if_neg hrun]
      rw [if_neg hq, if_neg hc]

/-- Witness for the amended sizing at the fee-edge inputs: equity `10000`,
spendable `8000`, open `1000000/667` (execution price exactly `1500`),
empty continuation. -/
theorem entry_sizing_amended_witness :
    entriesPass MAX_POSITION_PCT 10000 1 [(0, 80, 1000000 / 667)] 10000 8000 [] 0 =
      if code_entry_qty MAX_POSITION_PCT 10000 8000 (1000000 / 667) = 0 ∨
          (10000 : ℚ) < entry_total_cost MAX_POSITION_PCT 10000 8000 (1000000 / 667) then
        entriesPass MAX_POSITION_PCT 10000 1 [] 10000 8000 [] 0
      else
        ((entriesPass MAX_POSITION_PCT 10000 1 []
            (10000 - entry_total_cost MAX_POSITION_PCT 10000 8000 (1000000 / 667))
            (max 0 (8000 - entry_total_cost MAX_POSITION_PCT 10000 8000 (1000000 / 667)))
            ([] ++ [(0, ⟨code_entry_qty MAX_POSITION_PCT 10000 8000 (1000000 / 667),
              exec_price_of (1000000 / 667), 1⟩)]) (0 + 1)).1,
          (entriesPass MAX_POSITION_PCT 10000 1 []
            (10000 - entry_total_cost MAX_POSITION_PCT 10000 8000 (1000000 / 667))
            (max 0 (8000 - entry_total_cost MAX_POSITION_PCT 10000 8000 (1000000 / 667)))
            ([] ++ [(0, ⟨code_entry_qty MAX_POSITION_PCT 10000 8000 (1000000 / 667),
              exec_price_of (1000000 / 667), 1⟩)]) (0 + 1)).2.1,
          ⟨1, 0, Side.buy, code_entry_qty MAX_POSITION_PCT 10000 8000 (1000000 / 667),
              exec_price_of (1000000 / 667), 1⟩ ::
            (entriesPass MAX_POSITION_PCT 10000 1 []
              (10000 - entry_total_cost MAX_POSITION_PCT 10000 8000 (1000000 / 667))
              (max 0 (8000 - entry_total_cost MAX_POSITION_PCT 10000 8000 (1000000 / 667)))
              ([] ++ [(0, ⟨code_entry_qty MAX_POSITION_PCT 10000 8000 (1000000 / 667),
                exec_price_of (1000000 / 667), 1⟩)]) (0 + 1)).2.2) :=
  entry_sizing_amended MAX_POSITION_PCT 10000 1 0 80 (1000000 / 667) [] 10000 8000 [] 0
    (by decide)

/-- C2 counterexample: at the fee-edge inputs the spec formula
`⌊target_notional / exec_price⌋` yields one affordable share
(`1 * 1500 + 1 ≤ 10000`), yet the run records no trade and opens no
position — the code's fee-adjusted quantity is `0`, so the candidate is
skipped even though the spec's skip condition does not hold.  The
candidate itself is present (symbol `0`, score `80`, open `1000000/667`),
and the day's equity and spendable cash are `10000` and `8000`. -/
theorem entry_sizing_spec_counterexample :
    spec_entry_qty 10000 8000 1500 = 1 ∧
      (1 : ℚ) * 1500 + FEE_PER_TRADE ≤ 10000 ∧
      exec_price_of (1000000 / 667) = 1500 ∧
      code_entry_qty MAX_POSITION_PCT 10000 8000 (1000000 / 667) = 0 ∧
      candidateListAt feeEdgeData ENTRY_THRESHOLD MAX_POSITION_PCT STOP_LOSS_PCT [0, 1] 1 =
        [(0, 80, 1000000 / 667)] ∧
      (runSim feeEdgeData ENTRY_THRESHOLD MAX_POSITION_PCT STOP_LOSS_PCT 0 [1]).trades = [] ∧
      (runSim feeEdgeData ENTRY_THRESHOLD MAX_POSITION_PCT STOP_LOSS_PCT 0 [1]).positions =
        [] := by
  decide

/-! ### Scoring: source accumulation vs spec buckets (C5) -/

theorem ite_add_shift (c : Prop) [Decidable c] (s k : ℚ) :
    (if c then s + k else s) = s + (if c then k else 0) := by
  split <;> simp

theorem ite_add_shift2 (c₁ c₂ : Prop) [Decidable c₁] [Decidable c₂] (s k₁ k₂ : ℚ) :
    (if c₁ then s + k₁ else if c₂ then s + k₂ else s) =
      s + (if c₁ then k₁ else if c₂ then k₂ else 0) := by
  split_ifs <;> ring

/-- The regime bucket accumulates exactly the spec's regime points. -/
theorem regime_add_eq (v r20 s : ℚ) : regime_add v r20 s = s + regime_points v r20 := by
  unfold regime_add regime_points
  split_ifs <;> ring

/-- The sequential accumulation of the first three buckets equals the
spec's independent bucket sums. -/
theorem score_pre_regime_eq (d50 rsi r5 r20 d200 ap rv : ℚ) :
    score_pre_regime d50 rsi r5 r20 d200 ap rv =
      momentum_points d50 rsi r5 r20 + quality_points d200 rsi ap +
        catalyst_points rv r5 r20 := by
  unfold score_pre_regime momentum_points quality_points catalyst_points
  by_cases h1 : 18 / 10 < rv
  · simp only [if_pos h1, ite_add_shift]
    ring
  · by_cases h2 : 12 / 10 < rv
    · simp only [if_neg h1, if_pos h2, ite_add_shift]
      ring
    · simp only [if_neg h1, if_neg h2, ite_add_shift]
      ring

/-- C5: the scoring function is a pure function of a feature row that is
undefined exactly when some input field is undefined, otherwise equals the
sum of the four fixed point buckets (momentum max 35, quality max 25,
catalyst max 20, regime max 20, with the spec's thresholds) clamped to
`[0, 100]`; every defined score lies in `[0, 100]`. -/
theorem score_row_spec :
    (∀ row : FeatureRow, score_row row = score_spec row) ∧
      (∀ row : FeatureRow, score_row row = none ↔ row.anyNone) ∧
      ∀ (row : FeatureRow) (s : ℚ), score_row row = some s → 0 ≤ s ∧ s ≤ 100 := by
  refine ⟨?_, ?_, ?_⟩
  · intro row
    unfold score_row score_spec
    by_cases h : row.anyNone
    · rw [if_pos h, if_pos h]
    · rw [if_neg h, if_neg h]
      rw [regime_add_eq, score_pre_regime_eq]
  · intro row
    unfold score_row
    by_cases h : row.anyNone
    · simp [h]
    · simp [h]
  · intro row s hs
    unfold score_row at hs
    by_cases h : row.anyNone
    · rw [if_pos h] at hs
      cases hs
    · rw [if_neg h] at hs
      injection hs with hs
      subst hs
      exact ⟨le_min (by norm_num) (le_max_left 0 _), min_le_left _ _⟩

/-- Witness: a fully defined row whose buckets all fire scores exactly
`100`, which lies in the claimed range. -/
theorem score_row_spec_witness :
    score_row fullRow = some 100 ∧ (0 : ℚ) ≤ 100 ∧ (100 : ℚ) ≤ 100 :=
  ⟨by decide, score_row_spec.2.2 fullRow 100 (by decide)⟩

/-! ### Walk-forward threshold selection (C6) -/

/-- The selection loop returns either the incumbent or a grid element, its
score never decreases, it dominates every scanned element, and it moves
off the incumbent only for a strictly larger score. -/
theorem selectThresholdGo_spec {α : Type} [LinearOrder α] (f : ℤ → α) :
    ∀ (ts : List ℤ) (best : ℤ),
      (selectThresholdGo f best (f best) ts = best ∨
          selectThresholdGo f best (f best) ts ∈ ts) ∧
        f best ≤ f (selectThresholdGo f best (f best) ts) ∧
        (∀ u ∈ ts, f u ≤ f (selectThresholdGo f best (f best) ts)) ∧
        (f (selectThresholdGo f best (f best) ts) ≤ f best →
          selectThresholdGo f best (f best) ts = best)
  | [], best => ⟨Or.inl rfl, le_refl _, by simp, fun _ => rfl⟩
  | t :: ts, best => by
    simp only [selectThresholdGo]
    by_cases h : f best < f t
    · rw [if_pos h]
      obtain ⟨hmem, hle, hall, hback⟩ := selectThresholdGo_spec f ts t
      refine ⟨Or.inr (by rcases hmem with h' | h' <;> simp [h']), h.le.trans hle, ?_, ?_⟩
      · intro u hu
        rcases List.mem_cons.1 hu with rfl | hu
        · exact hle
        · exact hall u hu
      · intro hle'
        exact absurd (lt_of_lt_of_le h hle) (not_lt.2 hle')
    · rw [if_neg h]
      obtain ⟨hmem, hle, hall, hback⟩ := selectThresholdGo_spec f ts best
      refine ⟨by rcases hmem with h' | h' <;> simp [h'], hle, ?_, hback⟩
      intro u hu
      rcases List.mem_cons.1 hu with rfl | hu
      · exact (not_lt.1 h).trans hle
      · exact hall u hu

/-- On a strictly ascending scan list, the loop's result is the first
element attaining the maximal score. -/
theorem selectThresholdGo_first {α : Type} [LinearOrder α] (f : ℤ → α) :
    ∀ (ts : List ℤ) (best : ℤ), List.Pairwise (· < ·) (best :: ts) →
      ∀ u ∈ best :: ts, f u = f (selectThresholdGo f best (f best) ts) →
        selectThresholdGo f best (f best) ts ≤ u
  | [], best, _, u, hu, _ => by
    simp only [List.mem_singleton] at hu
    simp [selectThresholdGo, hu]
  | t :: ts, best, hpair, u, hu, heq => by
    simp only [selectThresholdGo] at heq ⊢
    by_cases h : f best < f t
    · rw [if_pos h] at heq ⊢
      have hpair' : List.Pairwise (· < ·) (t :: ts) := hpair.of_cons
      rcases List.mem_cons.1 hu with rfl | hu'
      · obtain ⟨_, hle, _, _⟩ := selectThresholdGo_spec f ts t
        have hcon := lt_of_lt_of_le h hle
        rw [← heq] at hcon
        exact absurd hcon (lt_irrefl _)
      · exact selectThresholdGo_first f ts t hpair' u hu' heq
    · rw [if_neg h] at heq ⊢
      obtain ⟨hmem, hle, hall, hback⟩ := selectThresholdGo_spec f ts best
      rcases List.mem_cons.1 hu with rfl | hu'
      · exact le_of_eq (hback heq.symm.le)
      · rcases List.mem_cons.1 hu' with rfl | hu''
        · rcases hmem with h' | h'
          · rw [h']
            exact ((List.pairwise_cons.1 hpair).1 u (List.mem_cons_self u ts)).le
          · have h1 : f (selectThresholdGo f best (f best) ts) ≤ f best := heq ▸ not_lt.1 h
            rw [hback h1]
            exact ((List.pairwise_cons.1 hpair).1 u (List.mem_cons_self u ts)).le
        · have hpair' : List.Pairwise (· < ·) (best :: ts) :=
            List.Pairwise.cons
              (fun y hy => (List.pairwise_cons.1 hpair).1 y (List.mem_cons_of_mem t hy))
              (List.pairwise_cons.1 hpair).2.of_cons
          exact selectThresholdGo_first f ts best hpair' u (List.mem_cons_of_mem best hu'') heq

/-- C6: for every nonempty ascending threshold grid, the walk-forward
orchestrator's selection for a training window maximizes the training
objective `strategy_sharpe + excess_return_pct / 100` over the grid, and
on ties returns the smallest (first-encountered) maximizing threshold. -/
theorem threshold_selection_argmax (raw : List (ℕ × RawSeries)) (bench : ℕ → ℚ)
    (grid : List ℤ) (trainDays stepDays N : ℕ) (hne : grid ≠ [])
    (hsorted : List.Pairwise (· < ·) grid) :
    selected_threshold_for_window raw bench grid trainDays stepDays N ∈ grid ∧
      (∀ u ∈ grid,
        simScore (buildSymbolData raw) bench (train_dates_of trainDays stepDays N) u ≤
          simScore (buildSymbolData raw) bench (train_dates_of trainDays stepDays N)
            (selected_threshold_for_window raw bench grid trainDays stepDays N)) ∧
      ∀ u ∈ grid,
        simScore (buildSymbolData raw) bench (train_dates_of trainDays stepDays N) u =
            simScore (buildSymbolData raw) bench (train_dates_of trainDays stepDays N)
              (selected_threshold_for_window raw bench grid trainDays stepDays N) →
          selected_threshold_for_window raw bench grid trainDays stepDays N ≤ u := by
  obtain ⟨g, gs, rfl⟩ := List.exists_cons_of_ne_nil hne
  unfold selected_threshold_for_window select_threshold_for_train selectThreshold
  obtain ⟨hmem, hle, hall, _⟩ :=
    selectThresholdGo_spec (simScore (buildSymbolData raw) bench
      (train_dates_of trainDays stepDays N)) gs g
  refine ⟨?_, ?_, ?_⟩
  · rcases hmem with h | h <;> simp [h]
  · intro u hu
    rcases List.mem_cons.1 hu with rfl | hu'
    · exact hle
    · exact hall u hu'
  · intro u hu heq
    exact selectThresholdGo_first _ gs g hsorted u hu heq

/-- Witness: on the empty universe the objective is constant, so the
default grid `[65, 70, 75]` selects its first element; the selection is a
member, maximal, and tie-broken downwards. -/
theorem threshold_selection_argmax_witness :
    selected_threshold_for_window [] (fun _ => 1) [65, 70, 75] 252 63 0 ∈
        ([65, 70, 75] : List ℤ) ∧
      (∀ u ∈ ([65, 70, 75] : List ℤ),
        simScore (buildSymbolData []) (fun _ => 1) (train_dates_of 252 63 0) u ≤
          simScore (buildSymbolData []) (fun _ => 1) (train_dates_of 252 63 0)
            (selected_threshold_for_window [] (fun _ => 1) [65, 70, 75] 252 63 0)) ∧
      ∀ u ∈ ([65, 70, 75] : List ℤ),
        simScore (buildSymbolData []) (fun _ => 1) (train_dates_of 252 63 0) u =
            simScore (buildSymbolData []) (fun _ => 1) (train_dates_of 252 63 0)
              (selected_threshold_for_window [] (fun _ => 1) [65, 70, 75] 252 63 0) →
          selected_threshold_for_window [] (fun _ => 1) [65, 70, 75] 252 63 0 ≤ u :=
  threshold_selection_argmax [] (fun _ => 1) [65, 70, 75] 252 63 0 (by simp)
    (by simp [List.pairwise_cons])

/-! ### Sharpe and information-ratio degeneracy (C8) -/

/-- A list with all elements equal has zero sample variance. -/
theorem svar_of_all_eq (l : List ℚ) (h : ∀ x ∈ l, ∀ y ∈ l, x = y) : svar l = 0 := by
  unfold svar
  split
  · rfl
  · rename_i hlen
    rw [List.sum_eq_zero, zero_div]
    intro x hx
    simp only [List.mem_map] at hx
    obtain ⟨a, ha, rfl⟩ := hx
    have hmean : listMean l = a := by
      unfold listMean
      rw [List.sum_eq_card_nsmul l a fun x hx => h x hx a ha]
      have hne : (l.length : ℚ) ≠ 0 := by
        simp only [not_le] at hlen
        positivity
      field_simp
    rw [hmean]
    ring

/-- All daily returns of a constant curve coincide. -/
theorem returnsOf_const (curve : List ℚ) (h : ∀ x ∈ curve, ∀ y ∈ curve, x = y) :
    ∀ x ∈ returnsOf curve, ∀ y ∈ returnsOf curve, x = y := by
  unfold returnsOf
  intro x hx y hy
  simp only [List.mem_map] at hx hy
  obtain ⟨⟨a1, a2⟩, ha, rfl⟩ := hx
  obtain ⟨⟨b1, b2⟩, hb, rfl⟩ := hy
  obtain ⟨ha1, ha2⟩ := List.of_mem_zip ha
  obtain ⟨hb1, hb2⟩ := List.of_mem_zip hb
  have ha2' := List.mem_of_mem_tail ha2
  have hb2' := List.mem_of_mem_tail hb2
  rw [h a1 ha1 b1 hb1, h a2 ha2' b2 hb2']

/-- C8: the evaluator returns Sharpe ratio exactly `0` whenever the daily
returns have zero or undefined standard deviation — in particular on every
constant equity curve — and likewise information ratio exactly `0` when
the active-return standard deviation is zero or undefined; the Lean
functions are total, so no exception or non-number can be produced. -/
theorem sharpe_degenerate_zero :
    (∀ curve : List ℚ,
        (returnsOf curve).length ≤ 1 ∨ svar (returnsOf curve) = 0 →
          strategy_sharpe curve = 0) ∧
      (∀ curve : List ℚ, (∀ x ∈ curve, ∀ y ∈ curve, x = y) → strategy_sharpe curve = 0) ∧
      ∀ s b : List ℚ,
        (active_returns s b).length ≤ 1 ∨ svar (active_returns s b) = 0 →
          information_rat s b = 0 := by
  refine ⟨?_, ?_, ?_⟩
  · intro curve h
    unfold strategy_sharpe sharpeOfReturns
    rw [if_pos h]
  · intro curve h
    unfold strategy_sharpe sharpeOfReturns
    rw [if_pos (Or.inr (svar_of_all_eq _ (returnsOf_const curve h)))]
  · intro s b h
    unfold information_rat sharpeOfReturns
    rw [if_pos h]

/-- Witness: the constant curve at the initial capital has Sharpe ratio
`0`, and the information ratio of the curve against itself is `0`. -/
theorem sharpe_degenerate_zero_witness :
    strategy_sharpe [10000, 10000, 10000] = 0 ∧
      information_rat [10000, 10000, 10000] [10000, 10000, 10000] = 0 :=
  ⟨sharpe_degenerate_zero.2.1 [10000, 10000, 10000] (by decide),
    sharpe_degenerate_zero.2.2 [10000, 10000, 10000] [10000, 10000, 10000]
      (Or.inr (by decide))⟩

/-! ### Congruence of the simulator in its inputs (used by C1 and C7) -/

/-- Close lookups agree on close-agreement dates. -/
theorem closeOf_congr {data₁ data₂ : List (ℕ × SymTable)} {Po Pc Ps : ℕ → Prop}
    (h : DataAgree data₁ data₂ Po Pc Ps) (d : ℕ) (hd : Pc d) (sym : ℕ) :
    closeOf data₁ sym d = closeOf data₂ sym d := by
  induction h with
  | nil => rfl
  | @cons a b l₁ l₂ hab htail ih =>
    obtain ⟨hkey, _, hclose, _⟩ := hab
    unfold closeOf at ih ⊢
    simp only [List.lookup, ← hkey]
    by_cases hsym : sym == a.1
    · simp only [hsym, if_true]
      exact hclose d hd
    · simp only [hsym]
      exact ih

/-- The unsorted candidate list agrees when scores agree on the signal
date and opens agree on the trade date. -/
theorem candidates_congr {data₁ data₂ : List (ℕ × SymTable)} {Po Pc Ps : ℕ → Prop}
    (h : DataAgree data₁ data₂ Po Pc Ps) (threshold : ℤ) (held : List (ℕ × Position))
    (date prev : ℕ) (hPo : Po date) (hPs : Ps prev) :
    candidates data₁ threshold held date prev = candidates data₂ threshold held date prev := by
  unfold candidates
  split
  · induction h with
    | nil => rfl
    | @cons a b l₁ l₂ hab htail ih =>
      obtain ⟨hkey, hopn, _, hscore⟩ := hab
      simp only [List.filterMap_cons]
      rw [ih, ← hkey, ← hscore prev hPs, ← hopn date hPo]
  · rfl

/-- The exit pass agrees when the closes of the held symbols agree on the
exit date. -/
theorem exitsPass_congr (data₁ data₂ : List (ℕ × SymTable)) (stop : ℚ) (date : ℕ) :
    ∀ ps : List (ℕ × Position),
      (∀ sym ∈ ps.map Prod.fst, closeOf data₁ sym date = closeOf data₂ sym date) →
      exitsPass data₁ stop date ps = exitsPass data₂ stop date ps
  | [], _ => rfl
  | (sym, p) :: rest, h => by
    have hhead : closeOf data₁ sym date = closeOf data₂ sym date :=
      h sym (by simp)
    have htail := exitsPass_congr data₁ data₂ stop date rest
      fun s hs => h s (by simp [hs])
    simp only [exitsPass, hhead, htail]

/-- Mark-to-market agrees when the closes of the held symbols agree. -/
theorem markValue_congr (data₁ data₂ : List (ℕ × SymTable)) (date : ℕ) :
    ∀ ps : List (ℕ × Position),
      (∀ sym ∈ ps.map Prod.fst, closeOf data₁ sym date = closeOf data₂ sym date) →
      markValue data₁ ps date = markValue data₂ ps date
  | [], _ => rfl
  | (sym, p) :: rest, h => by
    have hhead : closeOf data₁ sym date = closeOf data₂ sym date := h sym (by simp)
    have htail := markValue_congr data₁ data₂ date rest fun s hs => h s (by simp [hs])
    simp only [markValue, List.map_cons, List.sum_cons, hhead] at htail ⊢
    rw [htail]

/-- One day step agrees on inputs that agree at its trade date (opens and
closes) and signal date (scores). -/
theorem dayStep_congr {data₁ data₂ : List (ℕ × SymTable)} {Po Pc Ps : ℕ → Prop}
    (h : DataAgree data₁ data₂ Po Pc Ps) (threshold : ℤ) (maxPos stop : ℚ)
    (st : SimState) (prev date : ℕ) (hPo : Po date) (hPc : Pc date) (hPs : Ps prev) :
    dayStep data₁ threshold maxPos stop st prev date =
      dayStep data₂ threshold maxPos stop st prev date := by
  have hclose : ∀ sym, closeOf data₁ sym date = closeOf data₂ sym date :=
    closeOf_congr h date hPc
  have hex : exitsPass data₁ stop date st.positions = exitsPass data₂ stop date st.positions :=
    exitsPass_congr data₁ data₂ stop date st.positions fun sym _ => hclose sym
  have hmv : ∀ ps, markValue data₁ ps date = markValue data₂ ps date :=
    fun ps => markValue_congr data₁ data₂ date ps fun sym _ => hclose sym
  have hcand : ∀ held, candidates data₁ threshold held date prev =
      candidates data₂ threshold held date prev :=
    fun held => candidates_congr h threshold held date prev hPo hPs
  simp only [dayStep, hex, hmv, hcand]

/-- The day fold agrees on inputs that agree on all processed dates. -/
theorem runDays_congr {data₁ data₂ : List (ℕ × SymTable)} {Po Pc Ps : ℕ → Prop}
    (h : DataAgree data₁ data₂ Po Pc Ps) (threshold : ℤ) (maxPos stop : ℚ) :
    ∀ (days : List ℕ) (st : SimState) (prev : ℕ),
      (∀ d ∈ days, Po d ∧ Pc d ∧ Ps d) → Ps prev →
      runDays data₁ threshold maxPos stop st prev days =
        runDays data₂ threshold maxPos stop st prev days
  | [], st, prev, _, _ => rfl
  | d :: ds, st, prev, hdays, hprev => by
    obtain ⟨hPo, hPc, hPs⟩ := hdays d (by simp)
    simp only [runDays]
    rw [dayStep_congr h threshold maxPos stop st prev d hPo hPc hprev]
    exact runDays_congr h threshold maxPos stop ds _ d
      (fun x hx => hdays x (by simp [hx])) hPs

/-- The last processed date of the fold. -/
theorem runDays_snd (data : List (ℕ × SymTable)) (threshold : ℤ) (maxPos stop : ℚ) :
    ∀ (days : List ℕ) (st : SimState) (prev : ℕ),
      (runDays data threshold maxPos stop st prev days).2 = days.getLastD prev
  | [], st, prev => rfl
  | d :: ds, st, prev => by
    rw [List.getLastD_cons]
    exact runDays_snd data threshold maxPos stop ds _ d

/-- C1 counterexample: two single-symbol inputs with identical open and
score tables and identical closes on dates `0` and `1` — they differ only
in the close on date `2` (`95` vs `90`, and `sTable95.close d =
sTable90.close d` holds definitionally for every `d ≠ 2`) — produce
different candidate lists for entry on date `2`: the lower close stops out
the held position in the day's exit pass (which runs before candidate
selection and reads today's close), freeing the symbol to re-enter the
candidate list the same day. -/
theorem lookahead_candidates_counterexample :
    sTable95.opn 0 = sTable90.opn 0 ∧ sTable95.opn 1 = sTable90.opn 1 ∧
      sTable95.opn 2 = sTable90.opn 2 ∧
      sTable95.score 0 = sTable90.score 0 ∧ sTable95.score 1 = sTable90.score 1 ∧
      sTable95.score 2 = sTable90.score 2 ∧
      sTable95.close 0 = sTable90.close 0 ∧ sTable95.close 1 = sTable90.close 1 ∧
      sTable95.close 2 = 95 ∧ sTable90.close 2 = 90 ∧
      candidateListAt sData95 ENTRY_THRESHOLD MAX_POSITION_PCT STOP_LOSS_PCT [0, 1, 2] 2 =
        [] ∧
      candidateListAt sData90 ENTRY_THRESHOLD MAX_POSITION_PCT STOP_LOSS_PCT [0, 1, 2] 2 =
        [(0, 90, 96)] := by
  decide

/-- C1 (amended): the candidate list for entry on the day with index `k`
(date `t`) depends only on score data from dates before `t`, open prices
at `t`, close data at dates other than `t`, and the closes **at `t` of the
symbols held at the start of day `t`** (today's close can stop a held
position out in the exit pass, which runs first, and thereby re-admit that
symbol — and only such a symbol — to today's candidate list).  Two runs
on a strictly increasing calendar whose inputs agree in that pattern select
exactly the same candidate list on day `k`. -/
theorem lookahead_candidates_amended (data₁ data₂ : List (ℕ × SymTable)) (threshold : ℤ)
    (maxPos stop : ℚ) (d0 : ℕ) (rest : List ℕ) (k t : ℕ) (_hk : 1 ≤ k)
    (ht : rest[k - 1]? = some t) (hchain : List.Chain' (· < ·) (d0 :: rest))
    (hagree : DataAgree data₁ data₂ (fun _ => True) (fun d => d ≠ t) (fun d => d < t))
    (hheld : ∀ sym ∈ (runDays data₁ threshold maxPos stop (initState d0) d0
        (rest.take (k - 1))).1.positions.map Prod.fst,
      closeOf data₁ sym t = closeOf data₂ sym t) :
    candidateListAt data₁ threshold maxPos stop (d0 :: rest) k =
      candidateListAt data₂ threshold maxPos stop (d0 :: rest) k := by
  have hpw : List.Pairwise (· < ·) (d0 :: rest) :=
    List.chain'_iff_pairwise.mp hchain
  obtain ⟨hklen, htk⟩ := List.getElem?_eq_some_iff.mp ht
  have htmem : t ∈ rest := htk ▸ List.getElem_mem hklen
  have hd0 : d0 < t := (List.pairwise_cons.1 hpw).1 t htmem
  have htake : ∀ d ∈ rest.take (k - 1), d < t := by
    intro d hd
    obtain ⟨i, hi, hdi⟩ := List.mem_iff_getElem.mp hd
    have hi' : i < k - 1 := lt_of_lt_of_le hi (by simp)
    rw [List.getElem_take] at hdi
    have := (List.pairwise_iff_getElem.mp (List.pairwise_cons.1 hpw).2) i (k - 1)
      (lt_of_lt_of_le hi' (le_of_lt hklen) |>.trans_le (le_refl _)) hklen hi'
    rw [hdi, htk] at this
    exact this
  have hstates : runDays data₁ threshold maxPos stop (initState d0) d0 (rest.take (k - 1)) =
      runDays data₂ threshold maxPos stop (initState d0) d0 (rest.take (k - 1)) :=
    runDays_congr hagree threshold maxPos stop (rest.take (k - 1)) (initState d0) d0
      (fun d hd => ⟨trivial, (htake d hd).ne, htake d hd⟩) hd0
  have hmemD : ∀ (l : List ℕ) (d : ℕ), l.getLastD d = d ∨ l.getLastD d ∈ l := by
    intro l d
    rcases l.eq_nil_or_concat with rfl | ⟨l', a, rfl⟩
    · exact Or.inl rfl
    · right
      rw [List.getLastD_eq_getLast?, List.concat_eq_append, List.getLast?_concat]
      simp
  have hprev : (runDays data₁ threshold maxPos stop (initState d0) d0
      (rest.take (k - 1))).2 < t := by
    rw [runDays_snd]
    rcases hmemD (rest.take (k - 1)) d0 with h | h
    · rw [h]
      exact hd0
    · exact htake _ h
  unfold candidateListAt
  simp only [ht]
  rw [← hstates]
  unfold dayCandidates
  have hex : exitsPass data₁ stop t
      (runDays data₁ threshold maxPos stop (initState d0) d0 (rest.take (k - 1))).1.positions =
      exitsPass data₂ stop t
        (runDays data₁ threshold maxPos stop (initState d0) d0 (rest.take (k - 1))).1.positions :=
    exitsPass_congr data₁ data₂ stop t _ hheld
  rw [← hex]
  rw [candidates_congr hagree threshold _ t _ trivial hprev]

/-- Witness for the amended C1: two two-symbol inputs differing only in
the date-2 close of symbol `1` — which is not held at the start of day 2
(symbol `0` is, and its closes agree) — produce the same candidate list
on day 2. -/
theorem lookahead_candidates_amended_witness :
    candidateListAt pairData50 ENTRY_THRESHOLD MAX_POSITION_PCT STOP_LOSS_PCT [0, 1, 2] 2 =
      candidateListAt pairData60 ENTRY_THRESHOLD MAX_POSITION_PCT STOP_LOSS_PCT [0, 1, 2] 2 :=
  lookahead_candidates_amended pairData50 pairData60 ENTRY_THRESHOLD MAX_POSITION_PCT
    STOP_LOSS_PCT 0 [1, 2] 2 2 (by norm_num) (by decide) (by simp [List.chain'_cons])
    (List.Forall₂.cons
      ⟨rfl, fun _ _ => rfl, fun _ _ => rfl, fun _ _ => rfl⟩
      (List.Forall₂.cons
        ⟨rfl, fun _ _ => rfl,
          by
            intro d hd
            simp only [pairData50, pairData60, idleTable50, idleTable60]
            simp [hd],
          fun _ _ => rfl⟩
        List.Forall₂.nil))
    (by decide)

/-! ### Causality of the feature engine (used by C7)

Every derived feature at date `i` reads raw values at dates `≤ i` only, so
two raw universes agreeing on a prefix produce the same features — and the
same forward-filled scores — on that prefix. -/

theorem windowSum_congr {f g : ℕ → ℚ} (i n : ℕ) (h : ∀ j ≤ i, f j = g j) :
    windowSum f i n = windowSum g i n := by
  unfold windowSum
  congr 1
  exact List.map_congr_left fun k _ => h (i - k) (Nat.sub_le i k)

theorem ret_n_congr {c₁ c₂ : ℕ → ℚ} (n i : ℕ) (h : ∀ j ≤ i, c₁ j = c₂ j) :
    ret_n c₁ n i = ret_n c₂ n i := by
  unfold ret_n
  split
  · rw [h i le_rfl, h (i - n) (Nat.sub_le i n)]
  · rfl

theorem sma_n_congr {c₁ c₂ : ℕ → ℚ} (n i : ℕ) (h : ∀ j ≤ i, c₁ j = c₂ j) :
    sma_n c₁ n i = sma_n c₂ n i := by
  unfold sma_n
  rw [windowSum_congr i n h]

theorem dist_sma_congr {c₁ c₂ : ℕ → ℚ} (n i : ℕ) (h : ∀ j ≤ i, c₁ j = c₂ j) :
    dist_sma c₁ n i = dist_sma c₂ n i := by
  unfold dist_sma
  rw [sma_n_congr n i h, h i le_rfl]

theorem gainAt_congr {c₁ c₂ : ℕ → ℚ} (i : ℕ) (h : ∀ j ≤ i, c₁ j = c₂ j) :
    gainAt c₁ i = gainAt c₂ i := by
  cases i with
  | zero => rfl
  | succ m =>
    show max (c₁ (m + 1) - c₁ m) 0 = max (c₂ (m + 1) - c₂ m) 0
    rw [h (m + 1) le_rfl, h m (by omega)]

theorem lossAt_congr {c₁ c₂ : ℕ → ℚ} (i : ℕ) (h : ∀ j ≤ i, c₁ j = c₂ j) :
    lossAt c₁ i = lossAt c₂ i := by
  cases i with
  | zero => rfl
  | succ m =>
    show max (c₁ m - c₁ (m + 1)) 0 = max (c₂ m - c₂ (m + 1)) 0
    rw [h (m + 1) le_rfl, h m (by omega)]

theorem avg_gain_congr {c₁ c₂ : ℕ → ℚ} :
    ∀ i : ℕ, (∀ j ≤ i, c₁ j = c₂ j) → avg_gain c₁ i = avg_gain c₂ i
  | 0, h => gainAt_congr 0 h
  | i + 1, h => by
    show (13 / 14) * avg_gain c₁ i + (1 / 14) * gainAt c₁ (i + 1) =
      (13 / 14) * avg_gain c₂ i + (1 / 14) * gainAt c₂ (i + 1)
    rw [avg_gain_congr i fun j hj => h j (by omega), gainAt_congr (i + 1) h]

theorem avg_loss_congr {c₁ c₂ : ℕ → ℚ} :
    ∀ i : ℕ, (∀ j ≤ i, c₁ j = c₂ j) → avg_loss c₁ i = avg_loss c₂ i
  | 0, h => lossAt_congr 0 h
  | i + 1, h => by
    show (13 / 14) * avg_loss c₁ i + (1 / 14) * lossAt c₁ (i + 1) =
      (13 / 14) * avg_loss c₂ i + (1 / 14) * lossAt c₂ (i + 1)
    rw [avg_loss_congr i fun j hj => h j (by omega), lossAt_congr (i + 1) h]

theorem rsi_14_congr {c₁ c₂ : ℕ → ℚ} (i : ℕ) (h : ∀ j ≤ i, c₁ j = c₂ j) :
    rsi_14 c₁ i = rsi_14 c₂ i := by
  unfold rsi_14
  rw [avg_gain_congr i h, avg_loss_congr i h]

theorem trueRange_congr {c₁ c₂ hi₁ hi₂ lo₁ lo₂ : ℕ → ℚ} (i : ℕ)
    (hc : ∀ j ≤ i, c₁ j = c₂ j) (hh : ∀ j ≤ i, hi₁ j = hi₂ j)
    (hl : ∀ j ≤ i, lo₁ j = lo₂ j) :
    trueRange c₁ hi₁ lo₁ i = trueRange c₂ hi₂ lo₂ i := by
  cases i with
  | zero =>
    show hi₁ 0 - lo₁ 0 = hi₂ 0 - lo₂ 0
    rw [hh 0 le_rfl, hl 0 le_rfl]
  | succ m =>
    show max (hi₁ (m + 1) - lo₁ (m + 1)) (max |hi₁ (m + 1) - c₁ m| |lo₁ (m + 1) - c₁ m|) =
      max (hi₂ (m + 1) - lo₂ (m + 1)) (max |hi₂ (m + 1) - c₂ m| |lo₂ (m + 1) - c₂ m|)
    rw [hc m (by omega), hh (m + 1) le_rfl, hl (m + 1) le_rfl]

theorem atr_14_congr {c₁ c₂ hi₁ hi₂ lo₁ lo₂ : ℕ → ℚ} (i : ℕ)
    (hc : ∀ j ≤ i, c₁ j = c₂ j) (hh : ∀ j ≤ i, hi₁ j = hi₂ j)
    (hl : ∀ j ≤ i, lo₁ j = lo₂ j) :
    atr_14 c₁ hi₁ lo₁ i = atr_14 c₂ hi₂ lo₂ i := by
  unfold atr_14
  rw [windowSum_congr i 14 fun j hj =>
    trueRange_congr j (fun x hx => hc x (hx.trans hj)) (fun x hx => hh x (hx.trans hj))
      fun x hx => hl x (hx.trans hj)]

theorem vol_20d_avg_congr {v₁ v₂ : ℕ → ℚ} (i : ℕ) (h : ∀ j ≤ i, v₁ j = v₂ j) :
    vol_20d_avg v₁ i = vol_20d_avg v₂ i := by
  unfold vol_20d_avg
  rw [windowSum_congr (i - 1) 20 fun j hj => h j (hj.trans (Nat.sub_le i 1))]

theorem dailyRet_congr {c₁ c₂ : ℕ → ℚ} (j : ℕ) (h : ∀ x ≤ j, c₁ x = c₂ x) :
    dailyRet c₁ j = dailyRet c₂ j := by
  unfold dailyRet
  rw [h j le_rfl, h (j - 1) (Nat.sub_le j 1)]

theorem vol_20d_sq_congr {c₁ c₂ : ℕ → ℚ} (i : ℕ) (h : ∀ j ≤ i, c₁ j = c₂ j) :
    vol_20d_sq c₁ i = vol_20d_sq c₂ i := by
  unfold vol_20d_sq
  have hret : ∀ j ≤ i, dailyRet c₁ j = dailyRet c₂ j :=
    fun j hj => dailyRet_congr j fun x hx => h x (hx.trans hj)
  have hμ : windowSum (dailyRet c₁) i 20 = windowSum (dailyRet c₂) i 20 :=
    windowSum_congr i 20 hret
  rw [hμ, windowSum_congr i 20 fun j hj => by rw [hret j hj]]

/-- The tuple of per-series agreement hypotheses, as one statement about
two raw universes' entries. -/
theorem scoreAt_congr (r₁ r₂ : RawSeries) (i : ℕ)
    (hc : ∀ j ≤ i, r₁.close j = r₂.close j) (hh : ∀ j ≤ i, r₁.high j = r₂.high j)
    (hl : ∀ j ≤ i, r₁.low j = r₂.low j) (hv : ∀ j ≤ i, r₁.volume j = r₂.volume j) :
    scoreAt r₁ i = scoreAt r₂ i := by
  unfold scoreAt
  have hap : atr_pct r₁ i = atr_pct r₂ i := by
    unfold atr_pct
    rw [atr_14_congr i hc hh hl, hc i le_rfl]
  have hrv : rel_vol r₁ i = rel_vol r₂ i := by
    unfold rel_vol
    rw [vol_20d_avg_congr i hv, hv i le_rfl]
  rw [show ret_5d r₁.close i = ret_5d r₂.close i from ret_n_congr 5 i hc,
    show ret_20d r₁.close i = ret_20d r₂.close i from ret_n_congr 20 i hc,
    sma_n_congr 50 i hc, sma_n_congr 200 i hc, dist_sma_congr 50 i hc,
    dist_sma_congr 200 i hc, rsi_14_congr i hc, atr_14_congr i hc hh hl, hap,
    vol_20d_avg_congr i hv, hrv, vol_20d_sq_congr i hc]

theorem scoreFfillAt_congr (r₁ r₂ : RawSeries) :
    ∀ i : ℕ,
      (∀ j ≤ i, r₁.close j = r₂.close j) → (∀ j ≤ i, r₁.high j = r₂.high j) →
      (∀ j ≤ i, r₁.low j = r₂.low j) → (∀ j ≤ i, r₁.volume j = r₂.volume j) →
      scoreFfillAt r₁ i = scoreFfillAt r₂ i
  | 0, hc, hh, hl, hv => scoreAt_congr r₁ r₂ 0 hc hh hl hv
  | i + 1, hc, hh, hl, hv => by
    show (match scoreAt r₁ (i + 1) with
        | some s => some s
        | none => scoreFfillAt r₁ i) =
      match scoreAt r₂ (i + 1) with
      | some s => some s
      | none => scoreFfillAt r₂ i
    rw [scoreAt_congr r₁ r₂ (i + 1) hc hh hl hv]
    cases scoreAt r₂ (i + 1) with
    | some s => rfl
    | none =>
      exact scoreFfillAt_congr r₁ r₂ i (fun j hj => hc j (by omega))
        (fun j hj => hh j (by omega)) (fun j hj => hl j (by omega))
        fun j hj => hv j (by omega)

/-- Raw universes agreeing below `n` build symbol tables agreeing below
`n`: the open/close tables directly, the score table by causality of the
feature engine. -/
theorem buildSymbolData_agree (raw₁ raw₂ : List (ℕ × RawSeries)) (n : ℕ)
    (h : RawAgreeBelow raw₁ raw₂ n) :
    DataAgree (buildSymbolData raw₁) (buildSymbolData raw₂)
      (· < n) (· < n) (· < n) := by
  unfold buildSymbolData DataAgree
  rw [List.forall₂_map_left_iff, List.forall₂_map_right_iff]
  refine h.imp fun {a b} hab => ?_
  obtain ⟨hkey, hser⟩ := hab
  refine ⟨hkey, fun d hd => (hser d hd).1, fun d hd => (hser d hd).2.1, fun d hd => ?_⟩
  exact scoreFfillAt_congr a.2 b.2 d
    (fun j hj => (hser j (lt_of_le_of_lt hj hd)).2.1)
    (fun j hj => (hser j (lt_of_le_of_lt hj hd)).2.2.1)
    (fun j hj => (hser j (lt_of_le_of_lt hj hd)).2.2.2.1)
    fun j hj => (hser j (lt_of_le_of_lt hj hd)).2.2.2.2

/-- The training objective reads only dates strictly below `n` (plus the
benchmark rescaling base at global date `0`), so it agrees on inputs that
agree there. -/
theorem simScore_congr (data₁ data₂ : List (ℕ × SymTable)) (bench₁ bench₂ : ℕ → ℚ)
    (n : ℕ) (hagree : DataAgree data₁ data₂ (· < n) (· < n) (· < n)) (dates : List ℕ)
    (hdates : ∀ d ∈ dates, d < n) (hb : ∀ d < n, bench₁ d = bench₂ d)
    (h0 : dates ≠ [] → 0 < n) (thr : ℤ) :
    simScore data₁ bench₁ dates thr = simScore data₂ bench₂ dates thr := by
  match dates with
  | [] => rfl
  | [d] => rfl
  | d0 :: d1 :: rest =>
    have hbc : benchmarkCurve bench₁ (d0 :: d1 :: rest) =
        benchmarkCurve bench₂ (d0 :: d1 :: rest) := by
      unfold benchmarkCurve
      refine List.map_congr_left fun d hd => ?_
      rw [hb d (hdates d hd), hb 0 (h0 (by simp))]
    cases hagree with
    | nil => rfl
    | @cons a b l₁ l₂ hab htail =>
      have hrun : runDays (a :: l₁) thr MAX_POSITION_PCT STOP_LOSS_PCT (initState d0) d0
          (d1 :: rest) =
          runDays (b :: l₂) thr MAX_POSITION_PCT STOP_LOSS_PCT (initState d0) d0
            (d1 :: rest) :=
        runDays_congr (List.Forall₂.cons hab htail) thr MAX_POSITION_PCT STOP_LOSS_PCT
          (d1 :: rest) (initState d0) d0
          (fun d hd =>
            ⟨hdates d (by simp [hd]), hdates d (by simp [hd]), hdates d (by simp [hd])⟩)
          (hdates d0 (by simp))
      unfold simScore simulate_on_dates
      simp only [List.isEmpty_cons, hrun, hbc]

/-- C7: the threshold selected for walk-forward window `N` depends only on
data up to the end of the window's training range (index
`N * step_days + train_days`): two runs whose raw OHLCV series and
benchmark closes agree on all earlier dates — they may differ arbitrarily
on the test-phase dates — select the same threshold for window `N`. -/
theorem walkforward_selection_train_only (raw₁ raw₂ : List (ℕ × RawSeries))
    (bench₁ bench₂ : ℕ → ℚ) (grid : List ℤ) (trainDays stepDays N : ℕ)
    (hraw : RawAgreeBelow raw₁ raw₂ (N * stepDays + trainDays))
    (hbench : ∀ d < N * stepDays + trainDays, bench₁ d = bench₂ d) :
    selected_threshold_for_window raw₁ bench₁ grid trainDays stepDays N =
      selected_threshold_for_window raw₂ bench₂ grid trainDays stepDays N := by
  unfold selected_threshold_for_window select_threshold_for_train
  have hf : simScore (buildSymbolData raw₁) bench₁ (train_dates_of trainDays stepDays N) =
      simScore (buildSymbolData raw₂) bench₂ (train_dates_of trainDays stepDays N) := by
    funext thr
    refine simScore_congr _ _ _ _ (N * stepDays + trainDays)
      (buildSymbolData_agree raw₁ raw₂ _ hraw) _ ?_ hbench ?_ thr
    · intro d hd
      unfold train_dates_of at hd
      rw [List.mem_range'_1] at hd
      omega
    · intro hne
      unfold train_dates_of at hne
      rcases Nat.eq_zero_or_pos trainDays with h | h
      · simp [h] at hne
      · omega
  rw [hf]

/-- Witness: a one-symbol universe whose series are flat below date 2 and
bumped from date 2 on selects, for the window with `train_days = 2`,
`step_days = 63`, `N = 0`, the same threshold as the everywhere-flat
universe. -/
theorem walkforward_selection_train_only_witness :
    selected_threshold_for_window rawFlat (fun _ => 5) [65, 70, 75] 2 63 0 =
      selected_threshold_for_window rawBumped (fun _ => 5) [65, 70, 75] 2 63 0 :=
  walkforward_selection_train_only rawFlat rawBumped (fun _ => 5) (fun _ => 5) [65, 70, 75]
    2 63 0
    (List.Forall₂.cons
      ⟨rfl, by
        intro i hi
        simp only [rawFlat, rawBumped, rawSeriesFlat, rawSeriesBumped]
        simp [hi]⟩
      List.Forall₂.nil)
    (fun _ _ => rfl)

end Backtest
